import Mathlib

/-!
# Fifteen: the board model of the sliding-tile puzzle (`src/boardmodel.cpp`)

A shallow embedding of `BoardModel` and a verification of its specification.

Conventions of the embedding:

* C++ `int` values (cell indices, tile values, the move counter) are `Int`.  Arithmetic is
  the arithmetic of the integers; on a board whose indices and `_GAME_SHAPE` are far below
  `2^31` no operation of the source leaves the range of `int`.
* `QVector<int>` is `List Int`.  `operator[]` outside `0 .. length-1` has no defined result in
  the source; every function that indexes a vector returns `Option`, `none` standing for such
  an access.
* `QStack` is a list whose head is the top of the stack (`push` conses, `pop` removes the
  head).
* The constants `_GAME_SHAPE`, `GAME_SIZE`, `_EMPTY_ELEMENT` are declared in `boardmodel.h`.
  `_GAME_SHAPE` is the parameter `side` of every definition; the other two are modelled from
  the specification.
* `QRandomGenerator` is replaced by an explicit list of the directions that
  `_gen_direction` returns.
-/

namespace Fifteen

/-- The enumeration `BoardModel::DIRECTION`. -/
inductive DIRECTION where
  | UP
  | DOWN
  | LEFT
  | RIGHT
  deriving DecidableEq, Repr

/-- Modelled from the spec: `GAME_SIZE` is declared in `boardmodel.h`; the specification gives
the cell count as `size = side²`. -/
def GAME_SIZE (side : Nat) : Nat := side * side

/-- Modelled from the spec: `_EMPTY_ELEMENT` is declared in `boardmodel.h`; the specification
gives `0` as the value of the empty cell. -/
def _EMPTY_ELEMENT : Int := 0

/-- The data members of `BoardModel`. -/
structure BoardModel where
  _board : List Int
  _nul_index : Int
  _is_solved : Bool
  _start_board : List Int
  _start_nul_index : Int
  _start_is_solved : Bool
  _num_shifts : Int
  _states : List (Int × Int)
  deriving DecidableEq, Repr

/-- Reading `v[i]` of a `QVector<int>`; `none` when `i` is not an index of `v`. -/
def readCell (v : List Int) (i : Int) : Option Int :=
  if 0 ≤ i ∧ i < v.length then v[i.toNat]? else none

/-- Writing `v[i] = x` of a `QVector<int>`; `none` when `i` is not an index of `v`. -/
def writeCell (v : List Int) (i : Int) (x : Int) : Option (List Int) :=
  if 0 ≤ i ∧ i < v.length then some (v.set i.toNat x) else none

/-- The call `qSwap(v[i], v[j])`. -/
def qSwap (v : List Int) (i j : Int) : Option (List Int) :=
  match readCell v i, readCell v j with
  | some a, some b => (writeCell v i b).bind (fun w => writeCell w j a)
  | _, _ => none

/-- `BoardModel::_get_solved_board`: cell `i` receives `i + 1`, then the last cell receives
`_EMPTY_ELEMENT`. -/
def _get_solved_board (side : Nat) : Option (List Int) :=
  writeCell ((List.range (GAME_SIZE side)).map (fun (i : Nat) => (i : Int) + 1))
    ((GAME_SIZE side : Int) - 1) _EMPTY_ELEMENT

/-- The loop of `BoardModel::_check_solved` over the indices `is`, carrying `num_invs`. -/
def check_solved_loop (side : Nat) (board : List Int) : List Nat → Nat → Option Nat
  | [], num_invs => some num_invs
  | i :: is, num_invs =>
    match readCell board (i : Int) with
    | none => none
    | some v =>
      check_solved_loop side board is
        (if v ≠ Int.tmod ((i : Int) + 1) (GAME_SIZE side : Int) then num_invs + 1 else num_invs)

/-- `BoardModel::_check_solved`. -/
def _check_solved (side : Nat) (board : List Int) : Option Bool :=
  (check_solved_loop side board (List.range (GAME_SIZE side)) 0).map (fun num_invs => num_invs == 0)

/-- `BoardModel::_check_direction`; `%` is the truncating remainder of C++. -/
def _check_direction (side : Nat) (nul_idx : Int) (direction : DIRECTION) : Bool :=
  match direction with
  | .UP => decide (nul_idx > (side : Int) - 1)
  | .DOWN => decide (nul_idx < (GAME_SIZE side : Int) - (side : Int))
  | .LEFT => decide (Int.tmod nul_idx (side : Int) ≠ 0)
  | .RIGHT => decide (Int.tmod nul_idx (side : Int) ≠ (side : Int) - 1)

/-- `BoardModel::_check_is_neighbour`. -/
def _check_is_neighbour (side : Nat) (lhs rhs : Int) (direction : DIRECTION) : Bool :=
  match direction with
  | .UP => decide (lhs - (side : Int) = rhs) || decide (rhs - (side : Int) = lhs)
  | .DOWN => decide (lhs + (side : Int) = rhs) || decide (rhs + (side : Int) = lhs)
  | .LEFT => decide (lhs - 1 = rhs) || decide (rhs - 1 = lhs)
  | .RIGHT => decide (lhs + 1 = rhs) || decide (rhs + 1 = lhs)

/-- `BoardModel::_make_move`: the reference parameters `board` and `nul_idx` are returned
together with the `bool` result. -/
def _make_move (side : Nat) (board : List Int) (nul_idx : Int) (direction : DIRECTION) :
    Option (List Int × Int × Bool) :=
  if _check_direction side nul_idx direction then
    match direction with
    | .UP => (qSwap board nul_idx (nul_idx - (side : Int))).map
        (fun b => (b, nul_idx - (side : Int), true))
    | .DOWN => (qSwap board nul_idx (nul_idx + (side : Int))).map
        (fun b => (b, nul_idx + (side : Int), true))
    | .LEFT => (qSwap board nul_idx (nul_idx - 1)).map (fun b => (b, nul_idx - 1, true))
    | .RIGHT => (qSwap board nul_idx (nul_idx + 1)).map (fun b => (b, nul_idx + 1, true))
  else some (board, nul_idx, false)

/-- The local variables of `BoardModel::move` together with the two members it updates before
its final `if`: `_board`, `_nul_index`, `result`, `swap_idx` (`none` while uninitialised). -/
structure MoveVars where
  board : List Int
  nul_index : Int
  result : Bool
  swap_idx : Option Int
  deriving DecidableEq, Repr

/-- One of the four `if (_check_direction ...) { if (_check_is_neighbour ...) { ... } }` blocks
of `BoardModel::move`. -/
def move_block (side : Nat) (idx : Int) (direction : DIRECTION) (v : MoveVars) :
    Option MoveVars :=
  if _check_direction side v.nul_index direction then
    if _check_is_neighbour side v.nul_index idx direction then
      (_make_move side v.board v.nul_index direction).map
        (fun r => { board := r.1, nul_index := r.2.1, result := true,
                    swap_idx := some v.nul_index })
    else some v
  else some v

/-- The four direction blocks of `BoardModel::move`, in the order of the source, each working
on the variables as the previous one left them. -/
def move_blocks (side : Nat) (idx : Int) (v : MoveVars) : Option MoveVars :=
  (((move_block side idx .UP v).bind (move_block side idx .DOWN)).bind
    (move_block side idx .LEFT)).bind (move_block side idx .RIGHT)

/-- `BoardModel::move`: the new state, the success flag and the `QVariant` (absent on
failure). -/
def move (side : Nat) (s : BoardModel) (idx : Int) : Option (BoardModel × Bool × Option Int) :=
  match move_blocks side idx
      { board := s._board, nul_index := s._nul_index, result := false, swap_idx := none } with
  | none => none
  | some v =>
    if v.result then
      match _check_solved side v.board, v.swap_idx with
      | some solved, some swap_idx =>
        some ({ s with _board := v.board, _nul_index := v.nul_index, _is_solved := solved,
                       _num_shifts := s._num_shifts + 1,
                       _states := (idx, swap_idx) :: s._states }, true, some swap_idx)
      | _, _ => none
    else some ({ s with _board := v.board, _nul_index := v.nul_index }, false, none)

/-- `BoardModel::back_move` (undo): the new state, the success flag and the pair of
`QVariant`s (absent on failure). -/
def back_move (side : Nat) (s : BoardModel) : Option (BoardModel × Bool × Option (Int × Int)) :=
  match s._states with
  | [] => some (s, false, none)
  | prev :: rest =>
    match qSwap s._board prev.1 prev.2 with
    | none => none
    | some board =>
      match _check_solved side board with
      | none => none
      | some solved =>
        some ({ s with _states := rest, _board := board, _nul_index := prev.2,
                       _num_shifts := s._num_shifts - 1, _is_solved := solved },
              true, some prev)

/-- `BoardModel::set_start_board` (reset). -/
def set_start_board (s : BoardModel) : BoardModel :=
  if s._num_shifts ≠ 0 then
    { s with _board := s._start_board, _nul_index := s._start_nul_index,
             _is_solved := s._start_is_solved, _num_shifts := 0, _states := [] }
  else s

/-- `BoardModel::is_solved`. -/
def is_solved (s : BoardModel) : Bool × Option Int :=
  if s._is_solved then (true, some s._num_shifts) else (false, none)

/-- `BoardModel::get_board`. -/
def get_board (s : BoardModel) : List Int := s._board

/-- The default constructor `BoardModel::BoardModel()`.  Its initialiser list gives a value to
every member except `_start_board`, which is therefore a default-constructed, empty vector. -/
def BoardModel.default (side : Nat) : Option BoardModel :=
  (_get_solved_board side).map (fun b =>
    { _board := b, _nul_index := (GAME_SIZE side : Int) - 1, _is_solved := true,
      _start_board := [], _start_nul_index := (GAME_SIZE side : Int) - 1,
      _start_is_solved := true, _num_shifts := 0, _states := [] })

/-- The loop of `BoardModel::_gen_board`: one `_make_move` per generated direction. -/
def gen_board_loop (side : Nat) : List DIRECTION → List Int → Int → Option (List Int × Int)
  | [], final_state, nul_index => some (final_state, nul_index)
  | d :: ds, final_state, nul_index =>
    match _make_move side final_state nul_index d with
    | none => none
    | some r => gen_board_loop side ds r.1 r.2.1

/-- `BoardModel::_gen_board`; `dirs` lists the values returned by the `complexity` calls of
`_gen_direction`, so `complexity = dirs.length`. -/
def _gen_board (side : Nat) (dirs : List DIRECTION) : Option (List Int × Int) :=
  (_get_solved_board side).bind (fun b => gen_board_loop side dirs b ((GAME_SIZE side : Int) - 1))

/-- The `while (_is_solved)` loop of `BoardModel::BoardModel(bool, int)`.  `walks` holds, for
each iteration, the directions drawn by its call of `_gen_board`; `none` also stands for a loop
that has not ended when `walks` is used up. -/
def shuffle_loop (side : Nat) (s : BoardModel) : List (List DIRECTION) → Option BoardModel
  | [] => if s._is_solved then none else some s
  | w :: ws =>
    if s._is_solved then
      match _gen_board side w with
      | none => none
      | some rnd_result =>
        match _check_solved side rnd_result.1 with
        | none => none
        | some solved =>
          if !solved then
            shuffle_loop side
              { s with _is_solved := solved, _board := rnd_result.1,
                       _start_board := rnd_result.1, _nul_index := rnd_result.2 } ws
          else shuffle_loop side s ws
    else some s

/-- The constructor `BoardModel::BoardModel(bool is_rnd, int complexity)`. -/
def BoardModel.construct (side : Nat) (is_rnd : Bool) (walks : List (List DIRECTION)) :
    Option BoardModel :=
  (BoardModel.default side).bind (fun s => if is_rnd then shuffle_loop side s walks else some s)

/-- The calls a client can make on a constructed model. -/
inductive Call where
  | move (idx : Int)
  | undo
  | reset
  deriving DecidableEq, Repr

/-- The state after one call. -/
def step (side : Nat) (s : BoardModel) : Call → Option BoardModel
  | .move idx => (move side s idx).map (fun r => r.1)
  | .undo => (back_move side s).map (fun r => r.1)
  | .reset => some (set_start_board s)

/-- The state after a sequence of calls. -/
def run (side : Nat) (s : BoardModel) : List Call → Option BoardModel
  | [] => some s
  | c :: cs => (step side s c).bind (fun t => run side t cs)

/-- Cell `i` holds `(i + 1) mod size`: the solved configuration of the specification. -/
def solvedConfiguration (side : Nat) : List Int :=
  (List.range (GAME_SIZE side)).map (fun (i : Nat) => (((i + 1) % GAME_SIZE side : Nat) : Int))

/-- The board is a permutation of `0 .. size-1`. -/
def IsPermutation (side : Nat) (board : List Int) : Prop :=
  board.Perm ((List.range (GAME_SIZE side)).map (fun (i : Nat) => (i : Int)))

/-- A well-formed state: the board is a permutation of `0 .. size-1`, the blank index is a
cell and that cell holds `0`. -/
def WellFormed (side : Nat) (s : BoardModel) : Prop :=
  IsPermutation side s._board ∧ 0 ≤ s._nul_index ∧ s._nul_index < (GAME_SIZE side : Int) ∧
    readCell s._board s._nul_index = some 0

instance (side : Nat) (board : List Int) : Decidable (IsPermutation side board) := by
  unfold IsPermutation; infer_instance

instance (side : Nat) (s : BoardModel) : Decidable (WellFormed side s) := by
  unfold WellFormed; infer_instance

/-- The cell `target` is a cell of the grid and a geometric neighbour of the cell `blank`: in
the same column at distance `side`, or in the same row at distance `1`. -/
def GeometricNeighbour (side : Nat) (blank target : Int) : Prop :=
  0 ≤ target ∧ target < (GAME_SIZE side : Int) ∧
  ((blank % (side : Int) = target % (side : Int) ∧
      (blank - target = (side : Int) ∨ target - blank = (side : Int))) ∨
   (blank / (side : Int) = target / (side : Int) ∧ (blank - target = 1 ∨ target - blank = 1)))

instance (side : Nat) (a b : Int) : Decidable (GeometricNeighbour side a b) := by
  unfold GeometricNeighbour; infer_instance

/-- The index offset of one step of the blank in a direction, as applied by `_make_move`. -/
def offset (side : Nat) : DIRECTION → Int
  | .UP => -(side : Int)
  | .DOWN => (side : Int)
  | .LEFT => -1
  | .RIGHT => 1

/-- Both tests that a direction block of `move` applies. -/
def passes (side : Nat) (nul_idx idx : Int) (d : DIRECTION) : Bool :=
  _check_direction side nul_idx d && _check_is_neighbour side nul_idx idx d

/-- The first direction, in the order of `move`, whose block passes both tests. -/
def firstMatch (side : Nat) (nul_idx idx : Int) : Option DIRECTION :=
  [DIRECTION.UP, DIRECTION.DOWN, DIRECTION.LEFT, DIRECTION.RIGHT].find? (passes side nul_idx idx)

/-- What the blocks of `move` do when direction `d` is the one that fires. -/
def fired (side : Nat) (v : MoveVars) (d : DIRECTION) : Option MoveVars :=
  (qSwap v.board v.nul_index (v.nul_index + offset side d)).map
    (fun b => { board := b, nul_index := v.nul_index + offset side d, result := true,
                swap_idx := some v.nul_index })

/-- The integer `i` is a cell index of the board. -/
def InRange (side : Nat) (i : Int) : Prop := 0 ≤ i ∧ i < (GAME_SIZE side : Int)

/-- The current board is a permutation, the blank index is a cell and every record of the
history names two cells. -/
def CoreInv (side : Nat) (s : BoardModel) : Prop :=
  IsPermutation side s._board ∧ InRange side s._nul_index ∧
    ∀ p ∈ s._states, InRange side p.1 ∧ InRange side p.2

/-- The board of the start snapshot is a permutation and its blank index is a cell. -/
def StartInv (side : Nat) (s : BoardModel) : Prop :=
  IsPermutation side s._start_board ∧ InRange side s._start_nul_index

/-- The targets of all `move` calls of a sequence are cells of the board. -/
def TargetsInRange (side : Nat) (calls : List Call) : Prop :=
  ∀ idx, Call.move idx ∈ calls → InRange side idx

/-- The state built by the default constructor on the 4 × 4 board. -/
def solved4 : BoardModel :=
  { _board := [1, 2, 3, 4, 5, 6, 7, 8, 9, 10, 11, 12, 13, 14, 15, 0], _nul_index := 15,
    _is_solved := true, _start_board := [], _start_nul_index := 15, _start_is_solved := true,
    _num_shifts := 0, _states := [] }

/-- The state of the 4 × 4 board after `move(11)` on the solved board: the blank is in row 2. -/
def blank11 : BoardModel :=
  { _board := [1, 2, 3, 4, 5, 6, 7, 8, 9, 10, 11, 0, 13, 14, 15, 12], _nul_index := 11,
    _is_solved := false, _start_board := [], _start_nul_index := 15, _start_is_solved := true,
    _num_shifts := 1, _states := [(11, 15)] }

/-- The state of the 4 × 4 board after `move(14)` on the solved board. -/
def blank14 : BoardModel :=
  { _board := [1, 2, 3, 4, 5, 6, 7, 8, 9, 10, 11, 12, 13, 14, 0, 15], _nul_index := 14,
    _is_solved := false, _start_board := [], _start_nul_index := 15, _start_is_solved := true,
    _num_shifts := 1, _states := [(14, 15)] }

/-- The state that `move(15)` produces from `blank11`: the blank has gone up to cell 7. -/
def blank7 : BoardModel :=
  { _board := [1, 2, 3, 4, 5, 6, 7, 0, 9, 10, 11, 8, 13, 14, 15, 12], _nul_index := 7,
    _is_solved := false, _start_board := [], _start_nul_index := 15, _start_is_solved := true,
    _num_shifts := 2, _states := [(15, 11), (11, 15)] }

/-- The state that `undo()` produces from `blank7`. -/
def undone7 : BoardModel :=
  { _board := [1, 2, 3, 4, 5, 6, 7, 0, 9, 10, 11, 12, 13, 14, 15, 8], _nul_index := 11,
    _is_solved := false, _start_board := [], _start_nul_index := 15, _start_is_solved := true,
    _num_shifts := 1, _states := [(11, 15)] }

/-- The state that `move(19)` produces from the solved 4 × 4 board: the blank has gone up to
cell 11 and the history holds the record `(19, 15)`. -/
def blank11_after19 : BoardModel :=
  { _board := [1, 2, 3, 4, 5, 6, 7, 8, 9, 10, 11, 0, 13, 14, 15, 12], _nul_index := 11,
    _is_solved := false, _start_board := [], _start_nul_index := 15, _start_is_solved := true,
    _num_shifts := 1, _states := [(19, 15)] }

/-- The state that `reset()` produces from `blank14`, a state of the model built by the default
constructor. -/
def reset14 : BoardModel :=
  { _board := [], _nul_index := 15, _is_solved := true, _start_board := [],
    _start_nul_index := 15, _start_is_solved := true, _num_shifts := 0, _states := [] }

/-- Ten times `LEFT`: a walk that leaves the blank of the 4 × 4 board in cell 12. -/
def walkLeft : List DIRECTION := List.replicate 10 DIRECTION.LEFT

/-- The state built by the shuffling constructor on the 4 × 4 board from the walk `walkLeft`. -/
def shuffled12 : BoardModel :=
  { _board := [1, 2, 3, 4, 5, 6, 7, 8, 9, 10, 11, 12, 0, 13, 14, 15], _nul_index := 12,
    _is_solved := false, _start_board := [1, 2, 3, 4, 5, 6, 7, 8, 9, 10, 11, 12, 0, 13, 14, 15],
    _start_nul_index := 15, _start_is_solved := true, _num_shifts := 0, _states := [] }

/-- The state that `move(13)` produces from `shuffled12`. -/
def shuffled12_moved : BoardModel :=
  { _board := [1, 2, 3, 4, 5, 6, 7, 8, 9, 10, 11, 12, 13, 0, 14, 15], _nul_index := 13,
    _is_solved := false, _start_board := [1, 2, 3, 4, 5, 6, 7, 8, 9, 10, 11, 12, 0, 13, 14, 15],
    _start_nul_index := 15, _start_is_solved := true, _num_shifts := 1, _states := [(13, 12)] }

/-- The state that `reset()` produces from `shuffled12_moved`. -/
def shuffled12_reset : BoardModel :=
  { _board := [1, 2, 3, 4, 5, 6, 7, 8, 9, 10, 11, 12, 0, 13, 14, 15], _nul_index := 15,
    _is_solved := true, _start_board := [1, 2, 3, 4, 5, 6, 7, 8, 9, 10, 11, 12, 0, 13, 14, 15],
    _start_nul_index := 15, _start_is_solved := true, _num_shifts := 0, _states := [] }

/-- The variant of the four blocks of `move` that the specification allows as an optimisation:
the blocks are tried in the order UP, DOWN, LEFT, RIGHT and the evaluation stops after the first
block that matches (the first block that sets `result`). -/
def move_blocks_short_circuit (side : Nat) (idx : Int) (v : MoveVars) : Option MoveVars :=
  match move_block side idx .UP v with
  | none => none
  | some a =>
    if a.result then some a
    else
      match move_block side idx .DOWN a with
      | none => none
      | some b =>
        if b.result then some b
        else
          match move_block side idx .LEFT b with
          | none => none
          | some c => if c.result then some c else move_block side idx .RIGHT c

/-- The variant of `move` that stops after the first direction block that matches: `move` with
`move_blocks_short_circuit` in the place of `move_blocks`. -/
def move_short_circuit (side : Nat) (s : BoardModel) (idx : Int) :
    Option (BoardModel × Bool × Option Int) :=
  match move_blocks_short_circuit side idx
      { board := s._board, nul_index := s._nul_index, result := false, swap_idx := none } with
  | none => none
  | some v =>
    if v.result then
      match _check_solved side v.board, v.swap_idx with
      | some solved, some swap_idx =>
        some ({ s with _board := v.board, _nul_index := v.nul_index, _is_solved := solved,
                       _num_shifts := s._num_shifts + 1,
                       _states := (idx, swap_idx) :: s._states }, true, some swap_idx)
      | _, _ => none
    else some ({ s with _board := v.board, _nul_index := v.nul_index }, false, none)

/-- A direction block of `move` together with a counter of the swaps made: the counter grows
when the block calls `_make_move`, that is when both of its tests pass. -/
def move_block_counted (side : Nat) (idx : Int) (direction : DIRECTION) (p : MoveVars × Nat) :
    Option (MoveVars × Nat) :=
  (move_block side idx direction p.1).map
    (fun w => (w, if passes side p.1.nul_index idx direction then p.2 + 1 else p.2))

/-- The four blocks of `move` with the counter of swaps, starting from 0. -/
def move_blocks_counted (side : Nat) (idx : Int) (v : MoveVars) : Option (MoveVars × Nat) :=
  (((move_block_counted side idx .UP (v, 0)).bind (move_block_counted side idx .DOWN)).bind
    (move_block_counted side idx .LEFT)).bind (move_block_counted side idx .RIGHT)

/-- The direction opposite to a direction. -/
def opposite : DIRECTION → DIRECTION
  | .UP => .DOWN
  | .DOWN => .UP
  | .LEFT => .RIGHT
  | .RIGHT => .LEFT

/-- The effective steps of a walk that starts with the blank at `nul_idx`: the directions of
the walk that pass the edge test `_check_direction` when their turn comes. -/
def effective_steps (side : Nat) : List DIRECTION → Int → List DIRECTION
  | [], _ => []
  | d :: ds, nul_idx =>
    if _check_direction side nul_idx d then d :: effective_steps side ds (nul_idx + offset side d)
    else effective_steps side ds nul_idx

/-- A sequence of single-step moves through `_make_move`, every one of which must be valid
(`_make_move` returns `true`); `none` when a step is not valid or leaves the board. -/
def valid_moves (side : Nat) : List DIRECTION → List Int → Int → Option (List Int × Int)
  | [], board, nul_idx => some (board, nul_idx)
  | d :: ds, board, nul_idx =>
    match _make_move side board nul_idx d with
    | some (b, z, true) => valid_moves side ds b z
    | _ => none

/-- Ten times `UP`: a walk that leaves the blank of the 4 × 4 board in cell 3. -/
def walkUp : List DIRECTION := List.replicate 10 DIRECTION.UP

/-- The state built by the shuffling constructor on the 4 × 4 board from the walk `walkUp`. -/
def shuffled3 : BoardModel :=
  { _board := [1, 2, 3, 0, 5, 6, 7, 4, 9, 10, 11, 8, 13, 14, 15, 12], _nul_index := 3,
    _is_solved := false, _start_board := [1, 2, 3, 0, 5, 6, 7, 4, 9, 10, 11, 8, 13, 14, 15, 12],
    _start_nul_index := 15, _start_is_solved := true, _num_shifts := 0, _states := [] }

/-- On the 4 × 4 board: the board has 16 cells, the blank index is a cell above the last row
and the last cell holds tile 12. -/
def AboveLastRow (s : BoardModel) : Prop :=
  s._board.length = 16 ∧ 0 ≤ s._nul_index ∧ s._nul_index < 12 ∧ readCell s._board 15 = some 12

/-! ## The concrete states -/

theorem default_four : BoardModel.default 4 = some solved4 := by decide

theorem blank11_reached : run 4 solved4 [.move 11] = some blank11 := by decide

theorem blank11_wf : WellFormed 4 blank11 := by decide

theorem shuffled12_constructed : BoardModel.construct 4 true [walkLeft] = some shuffled12 := by
  decide

/-! ## The direction blocks of `move` -/

theorem make_move_of_check (side : Nat) (board : List Int) (nul : Int) (d : DIRECTION)
    (h : _check_direction side nul d = true) :
    _make_move side board nul d =
      (qSwap board nul (nul + offset side d)).map (fun b => (b, nul + offset side d, true)) := by
  unfold _make_move
  rw [if_pos h]
  cases d <;> simp [offset, Int.sub_eq_add_neg]

theorem move_block_eq (side : Nat) (idx : Int) (d : DIRECTION) (v : MoveVars) :
    move_block side idx d v =
      if passes side v.nul_index idx d = true then
        (qSwap v.board v.nul_index (v.nul_index + offset side d)).map
          (fun b => { board := b, nul_index := v.nul_index + offset side d, result := true,
                      swap_idx := some v.nul_index })
      else some v := by
  unfold move_block passes
  by_cases h1 : _check_direction side v.nul_index d = true
  · by_cases h2 : _check_is_neighbour side v.nul_index idx d = true
    · simp only [h1, h2, if_true, Bool.and_self, make_move_of_check side v.board v.nul_index d h1,
        Option.map_map]
      rfl
    · simp [h1, h2]
  · simp [h1]

theorem passes_iff (side : Nat) (nul idx : Int) (d : DIRECTION) :
    passes side nul idx d = true ↔
      _check_direction side nul d = true ∧ (nul + offset side d = idx ∨ idx + offset side d = nul) := by
  unfold passes _check_is_neighbour
  cases d <;> simp [offset, Int.sub_eq_add_neg]

theorem no_pass_after_up (side : Nat) (hs : 0 < side) (nul idx : Int)
    (h : passes side nul idx .UP = true) (d : DIRECTION) (hd : d ≠ .UP) :
    passes side (nul + offset side .UP) idx d = false := by
  rw [passes_iff] at h
  rw [Bool.eq_false_iff, Ne, passes_iff]
  rcases h with ⟨_, h⟩
  cases d <;> simp only [offset] at h ⊢ <;> first | exact absurd rfl hd | omega

theorem no_pass_after_down (side : Nat) (hs : 0 < side) (nul idx : Int)
    (h : passes side nul idx .DOWN = true) (d : DIRECTION) (hd : d = .LEFT ∨ d = .RIGHT) :
    passes side (nul + offset side .DOWN) idx d = false := by
  rw [passes_iff] at h
  rw [Bool.eq_false_iff, Ne, passes_iff]
  rcases h with ⟨_, h⟩
  rcases hd with rfl | rfl <;> simp only [offset] at h ⊢ <;> omega

theorem no_pass_after_left (side : Nat) (nul idx : Int)
    (h : passes side nul idx .LEFT = true) :
    passes side (nul + offset side .LEFT) idx .RIGHT = false := by
  rw [passes_iff] at h
  rw [Bool.eq_false_iff, Ne, passes_iff]
  rcases h with ⟨_, h⟩
  simp only [offset] at h ⊢
  omega

theorem move_blocks_eq (side : Nat) (hs : 0 < side) (idx : Int) (v : MoveVars) :
    move_blocks side idx v =
      match firstMatch side v.nul_index idx with
      | none => some v
      | some d => fired side v d := by
  unfold move_blocks firstMatch
  simp only [move_block_eq, List.find?]
  by_cases hU : passes side v.nul_index idx .UP = true
  · have h1 := no_pass_after_up side hs _ _ hU .DOWN (by decide)
    have h2 := no_pass_after_up side hs _ _ hU .LEFT (by decide)
    have h3 := no_pass_after_up side hs _ _ hU .RIGHT (by decide)
    simp only [hU, if_true, fired]
    cases qSwap v.board v.nul_index (v.nul_index + offset side .UP) with
    | none => rfl
    | some b => simp [h1, h2, h3]
  · simp only [hU, if_false, Option.some_bind, Bool.false_eq_true]
    by_cases hD : passes side v.nul_index idx .DOWN = true
    · have h2 := no_pass_after_down side hs _ _ hD .LEFT (by simp)
      have h3 := no_pass_after_down side hs _ _ hD .RIGHT (by simp)
      simp only [hD, if_true, fired]
      cases qSwap v.board v.nul_index (v.nul_index + offset side .DOWN) with
      | none => rfl
      | some b => simp [h2, h3]
    · simp only [hD, if_false, Option.some_bind, Bool.false_eq_true]
      by_cases hL : passes side v.nul_index idx .LEFT = true
      · have h3 := no_pass_after_left side _ _ hL
        simp only [hL, if_true, fired]
        cases qSwap v.board v.nul_index (v.nul_index + offset side .LEFT) with
        | none => rfl
        | some b => simp [h3]
      · simp only [hL, if_false, Option.some_bind, Bool.false_eq_true]
        by_cases hR : passes side v.nul_index idx .RIGHT = true
        · simp [hR, fired]
        · simp [hR]

theorem move_eq (side : Nat) (hs : 0 < side) (s : BoardModel) (idx : Int) :
    move side s idx =
      match firstMatch side s._nul_index idx with
      | none => some (s, false, none)
      | some d =>
        match qSwap s._board s._nul_index (s._nul_index + offset side d) with
        | none => none
        | some b =>
          (_check_solved side b).map (fun solved =>
            ({ s with _board := b, _nul_index := s._nul_index + offset side d,
                      _is_solved := solved, _num_shifts := s._num_shifts + 1,
                      _states := (idx, s._nul_index) :: s._states }, true, some s._nul_index)) := by
  unfold move
  rw [move_blocks_eq side hs]
  cases firstMatch side s._nul_index idx with
  | none => rfl
  | some d =>
    simp only [fired]
    cases qSwap s._board s._nul_index (s._nul_index + offset side d) with
    | none => rfl
    | some b =>
      cases hc : _check_solved side b with
      | none => simp [hc]
      | some solved => simp [hc]

theorem move_block_result (side : Nat) (idx : Int) (d : DIRECTION) (v w : MoveVars)
    (h : move_block side idx d v = some w) : w = v ∨ w.result = true := by
  rw [move_block_eq] at h
  by_cases hp : passes side v.nul_index idx d = true
  · rw [if_pos hp] at h
    cases hq : qSwap v.board v.nul_index (v.nul_index + offset side d) with
    | none => rw [hq] at h; exact absurd h (by simp)
    | some b =>
      rw [hq] at h
      right
      have h2 := Option.some.inj h
      rw [← h2]
  · rw [if_neg hp] at h
    left
    exact (Option.some.inj h).symm

theorem move_block_keeps_result (side : Nat) (idx : Int) (d : DIRECTION) (v w : MoveVars)
    (h : move_block side idx d v = some w) (hv : v.result = true) : w.result = true := by
  rcases move_block_result side idx d v w h with rfl | h2
  · exact hv
  · exact h2

theorem move_blocks_no_result (side : Nat) (idx : Int) (v w : MoveVars)
    (h : move_blocks side idx v = some w) (hw : w.result = false) : w = v := by
  unfold move_blocks at h
  cases hU : move_block side idx .UP v with
  | none => rw [hU] at h; exact absurd h (by simp)
  | some a =>
    rw [hU] at h
    simp only [Option.some_bind] at h
    cases hD : move_block side idx .DOWN a with
    | none => rw [hD] at h; exact absurd h (by simp)
    | some b =>
      rw [hD] at h
      simp only [Option.some_bind] at h
      cases hL : move_block side idx .LEFT b with
      | none => rw [hL] at h; exact absurd h (by simp)
      | some c =>
        rw [hL] at h
        simp only [Option.some_bind] at h
        have hc : c.result = false := by
          cases hcr : c.result with
          | false => rfl
          | true => rw [move_block_keeps_result side idx .RIGHT c w h hcr] at hw; exact absurd hw (by decide)
        have hb : b.result = false := by
          cases hbr : b.result with
          | false => rfl
          | true => rw [move_block_keeps_result side idx .LEFT b c hL hbr] at hc; exact absurd hc (by decide)
        have ha : a.result = false := by
          cases har : a.result with
          | false => rfl
          | true => rw [move_block_keeps_result side idx .DOWN a b hD har] at hb; exact absurd hb (by decide)
        have e4 : w = c := (move_block_result side idx .RIGHT c w h).resolve_right (by simp [hw])
        have e3 : c = b := (move_block_result side idx .LEFT b c hL).resolve_right (by simp [hc])
        have e2 : b = a := (move_block_result side idx .DOWN a b hD).resolve_right (by simp [hb])
        have e1 : a = v := (move_block_result side idx .UP v a hU).resolve_right (by simp [ha])
        rw [e4, e3, e2, e1]

theorem wellFormed_side_pos (side : Nat) (s : BoardModel) (h : WellFormed side s) : 0 < side := by
  rcases h with ⟨_, h0, h1, _⟩
  rcases Nat.eq_zero_or_pos side with rfl | hp
  · simp [GAME_SIZE] at h1
    omega
  · exact hp

/-! ## The claims about `move` -/

/-- C3: when `move(target)` returns failure, the whole state (board, blank index, solved flag,
move counter, undo history, and the start snapshot) is exactly the state before the call; this
holds for every state and every integer target. -/
theorem move_failure_leaves_state (side : Nat) (s t : BoardModel) (idx : Int) (r : Option Int)
    (h : move side s idx = some (t, false, r)) :
    t = s ∧ t._board = s._board ∧ t._nul_index = s._nul_index ∧ t._is_solved = s._is_solved ∧
      t._num_shifts = s._num_shifts ∧ t._states = s._states := by
  have key : t = s := by
    unfold move at h
    cases hb : move_blocks side idx
        { board := s._board, nul_index := s._nul_index, result := false, swap_idx := none } with
    | none => rw [hb] at h; exact absurd h (by simp)
    | some v =>
      rw [hb] at h
      simp only at h
      cases hr : v.result with
      | true =>
        rw [hr] at h
        simp only [if_true] at h
        cases hc : _check_solved side v.board with
        | none => rw [hc] at h; exact absurd h (by simp)
        | some solved =>
          cases hsw : v.swap_idx with
          | none => rw [hc, hsw] at h; exact absurd h (by simp)
          | some sw =>
            rw [hc, hsw] at h
            simp at h
      | false =>
        rw [hr] at h
        simp only [Bool.false_eq_true, if_false, Option.some.injEq, Prod.mk.injEq] at h
        have hv := move_blocks_no_result side idx _ v hb hr
        rw [← h.1, hv]
  subst key
  exact ⟨rfl, rfl, rfl, rfl, rfl, rfl⟩

/-- Witness of C3: `move(0)` on the solved 4 × 4 board fails and leaves the state as it was. -/
theorem move_failure_leaves_state_witness :
    move 4 solved4 0 = some (solved4, false, none) ∧ solved4 = solved4 :=
  ⟨by decide, (move_failure_leaves_state 4 solved4 solved4 0 none (by decide)).1⟩

/-- C1 (evaluation at the failing inputs): on the 4 × 4 board with the blank at cell 11 (a
well-formed state, reached from the solved board by `move(11)`), the target 15 is the cell
directly below the blank, yet `move(15)` succeeds by sliding the blank up to cell 7: cell 15
keeps its tile 12, the tile 8 of cell 7 lands in cell 11, and the history records `(15, 11)`.
Likewise with the blank at cell 14 (reached by `move(14)`) the target 15 is the cell to the
right of the blank, yet `move(15)` slides the blank left to cell 13. -/
theorem move_to_neighbour_misdirected :
    (run 4 solved4 [.move 11] = some blank11 ∧ WellFormed 4 blank11 ∧
      GeometricNeighbour 4 blank11._nul_index 15 ∧
      move 4 blank11 15 = some (blank7, true, some 11) ∧ blank7._nul_index = 7 ∧
      blank7._nul_index ≠ 15 ∧ readCell blank7._board 15 = some 12 ∧
      readCell blank7._board 7 = some 0 ∧ readCell blank7._board 11 = some 8 ∧
      blank7._states = (15, 11) :: blank11._states) ∧
    (run 4 solved4 [.move 14] = some blank14 ∧ WellFormed 4 blank14 ∧
      GeometricNeighbour 4 blank14._nul_index 15 ∧
      (move 4 blank14 15).map (fun r => (r.1._nul_index, readCell r.1._board 15, r.2)) =
        some (13, some 15, true, some 14)) := by
  decide

/-- C2 (evaluation at the failing inputs): on the 4 × 4 board with the blank at cell 11 (last
column of row 2) the target 12 (first column of row 3) is not a geometric neighbour, yet
`move(12)` succeeds and slides the blank left to cell 10; on the solved board (blank at 15) the
targets 16 and 19 lie outside the board, yet `move` succeeds for both, sliding the blank left
to cell 14 and up to cell 11. -/
theorem move_accepts_non_neighbours :
    (WellFormed 4 blank11 ∧ ¬ GeometricNeighbour 4 blank11._nul_index 12 ∧
      (move 4 blank11 12).map (fun r => (r.1._nul_index, r.2)) = some (10, true, some 11)) ∧
    (WellFormed 4 solved4 ∧ ¬ GeometricNeighbour 4 solved4._nul_index 16 ∧
      (move 4 solved4 16).map (fun r => (r.1._nul_index, r.2)) = some (14, true, some 15)) ∧
    (¬ GeometricNeighbour 4 solved4._nul_index 19 ∧
      (move 4 solved4 19).map (fun r => (r.1._nul_index, r.2)) = some (11, true, some 15)) := by
  decide

/-- C4 as stated fails: on the solved 4 × 4 board `move(14)` succeeds and puts the blank at
cell 14, but the index it returns is 15, which is neither the new blank position nor the
target. -/
theorem move_returns_old_blank_counterexample :
    WellFormed 4 solved4 ∧ move 4 solved4 14 = some (blank14, true, some 15) ∧
    blank14._nul_index = 14 ∧ (some 15 : Option Int) ≠ some blank14._nul_index := by
  decide

/-- C4 (amended): for every well-formed state and every target for which `move(target)`
succeeds, the index returned with the success flag is the blank's position before the move. -/
theorem move_returns_previous_blank (side : Nat) (s t : BoardModel) (idx : Int)
    (r : Option Int) (hw : WellFormed side s) (h : move side s idx = some (t, true, r)) :
    r = some s._nul_index := by
  rw [move_eq side (wellFormed_side_pos side s hw)] at h
  cases hf : firstMatch side s._nul_index idx with
  | none => rw [hf] at h; simp at h
  | some d =>
    rw [hf] at h
    simp only at h
    cases hq : qSwap s._board s._nul_index (s._nul_index + offset side d) with
    | none => rw [hq] at h; simp at h
    | some b =>
      rw [hq] at h
      simp only at h
      cases hc : _check_solved side b with
      | none => rw [hc] at h; simp at h
      | some solved =>
        rw [hc] at h
        simp only [Option.map_some', Option.some.injEq, Prod.mk.injEq] at h
        exact h.2.2.symm

/-- Witness of C4 (amended): `move(14)` on the solved 4 × 4 board returns 15, the blank's
position before the move. -/
theorem move_returns_previous_blank_witness :
    WellFormed 4 solved4 ∧ move 4 solved4 14 = some (blank14, true, some 15) ∧
    (some 15 : Option Int) = some solved4._nul_index :=
  ⟨by decide, by decide,
    move_returns_previous_blank 4 solved4 blank14 14 (some 15) (by decide) (by decide)⟩

/-- C5 (evaluation at the failing input): on the 4 × 4 board with the blank at cell 11,
`move(15)` succeeds and the `undo()` that follows succeeds too, but the board it leaves is not
the board before the move: cell 11 holds tile 12 instead of the blank, cell 15 holds tile 8 and
the blank stays in cell 7 while the blank index is set back to 11. -/
theorem undo_after_move_does_not_restore :
    WellFormed 4 blank11 ∧ move 4 blank11 15 = some (blank7, true, some 11) ∧
    back_move 4 blank7 = some (undone7, true, some (15, 11)) ∧
    undone7._board ≠ blank11._board ∧ undone7._nul_index = 11 ∧
    readCell undone7._board undone7._nul_index = some 12 ∧
    readCell undone7._board 7 = some 0 ∧ readCell undone7._board 15 = some 8 := by
  decide

/-! ## Vector accesses that succeed -/

theorem readCell_of_lt (v : List Int) (i : Int) (h0 : 0 ≤ i) (h1 : i < v.length) :
    ∃ a, readCell v i = some a := by
  unfold readCell
  rw [if_pos ⟨h0, h1⟩]
  have h : i.toNat < v.length := by omega
  exact ⟨v[i.toNat], List.getElem?_eq_getElem h⟩

theorem writeCell_of_lt (v : List Int) (i x : Int) (h0 : 0 ≤ i) (h1 : i < v.length) :
    writeCell v i x = some (v.set i.toNat x) := by
  unfold writeCell
  rw [if_pos ⟨h0, h1⟩]

theorem qSwap_of_lt (v : List Int) (i j : Int) (hi0 : 0 ≤ i) (hi1 : i < v.length)
    (hj0 : 0 ≤ j) (hj1 : j < v.length) :
    ∃ w, qSwap v i j = some w ∧ w.length = v.length := by
  obtain ⟨a, ha⟩ := readCell_of_lt v i hi0 hi1
  obtain ⟨b, hb⟩ := readCell_of_lt v j hj0 hj1
  unfold qSwap
  rw [ha, hb]
  simp only [writeCell_of_lt v i b hi0 hi1, Option.some_bind]
  rw [writeCell_of_lt _ j a hj0 (by simpa using hj1)]
  exact ⟨_, rfl, by simp⟩

theorem check_solved_loop_isSome (side : Nat) (board : List Int) (is : List Nat)
    (h : ∀ i ∈ is, i < board.length) (n : Nat) :
    ∃ m, check_solved_loop side board is n = some m := by
  induction is generalizing n with
  | nil => exact ⟨n, rfl⟩
  | cons i is ih =>
    obtain ⟨a, ha⟩ := readCell_of_lt board (i : Int) (by omega)
      (by have := h i (List.mem_cons_self _ _); omega)
    unfold check_solved_loop
    rw [ha]
    exact ih (fun k hk => h k (List.mem_cons_of_mem _ hk)) _

theorem check_solved_isSome (side : Nat) (board : List Int)
    (h : GAME_SIZE side ≤ board.length) : ∃ b, _check_solved side board = some b := by
  obtain ⟨m, hm⟩ := check_solved_loop_isSome side board (List.range (GAME_SIZE side))
    (fun i hi => by have := List.mem_range.mp hi; omega) 0
  unfold _check_solved
  rw [hm]
  exact ⟨_, rfl⟩

/-! ## Swaps keep the board a permutation -/

theorem swap_perm (v : List Int) (i j : Nat) (hi : i < v.length) (hj : j < v.length) :
    ((v.set i v[j]).set j v[i]).Perm v := by
  rw [List.perm_iff_count]
  intro c
  have hj2 : j < (v.set i v[j]).length := by simpa using hj
  rw [List.count_set _ _ _ _ hj2, List.count_set _ _ _ _ hi]
  have e : (v.set i v[j])[j] = v[j] := by
    rw [List.getElem_set]
    split <;> rfl
  rw [e]
  have h1 := List.boole_getElem_le_count c v i hi
  have h2 := List.boole_getElem_le_count c v j hj
  split <;> split <;> simp_all

theorem readCell_natCast (v : List Int) (k : Nat) (h : k < v.length) :
    readCell v (k : Int) = some v[k] := by
  unfold readCell
  rw [if_pos ⟨by omega, by omega⟩]
  simp [h]

theorem qSwap_natCast (v : List Int) (i j : Nat) (hi : i < v.length) (hj : j < v.length) :
    qSwap v (i : Int) (j : Int) = some ((v.set i v[j]).set j v[i]) := by
  unfold qSwap
  rw [readCell_natCast v i hi, readCell_natCast v j hj]
  simp only [writeCell_of_lt v (i : Int) v[j] (by omega) (by omega), Option.some_bind]
  rw [writeCell_of_lt _ (j : Int) v[i] (by omega) (by simpa using hj)]
  rfl

theorem qSwap_inRange (v : List Int) (i j : Int) (w : List Int) (h : qSwap v i j = some w) :
    (0 ≤ i ∧ i < v.length) ∧ (0 ≤ j ∧ j < v.length) := by
  unfold qSwap readCell at h
  by_cases hi : 0 ≤ i ∧ i < v.length
  · by_cases hj : 0 ≤ j ∧ j < v.length
    · exact ⟨hi, hj⟩
    · simp [hi, hj] at h
  · simp [hi] at h

theorem qSwap_perm (v : List Int) (i j : Int) (w : List Int) (h : qSwap v i j = some w) :
    w.Perm v := by
  obtain ⟨⟨hi0, hi1⟩, ⟨hj0, hj1⟩⟩ := qSwap_inRange v i j w h
  obtain ⟨a, rfl⟩ := Int.eq_ofNat_of_zero_le hi0
  obtain ⟨b, rfl⟩ := Int.eq_ofNat_of_zero_le hj0
  have ha : a < v.length := by omega
  have hb : b < v.length := by omega
  rw [qSwap_natCast v a b ha hb] at h
  rw [← Option.some.inj h]
  exact swap_perm v a b ha hb

theorem isPermutation_length (side : Nat) (board : List Int) (h : IsPermutation side board) :
    board.length = GAME_SIZE side := by
  have e := List.Perm.length_eq h
  rw [List.length_map, List.length_range] at e
  exact e

theorem qSwap_isPermutation (side : Nat) (v : List Int) (i j : Int) (w : List Int)
    (hv : IsPermutation side v) (h : qSwap v i j = some w) : IsPermutation side w :=
  (qSwap_perm v i j w h).trans hv

theorem check_direction_inRange (side : Nat) (nul : Int) (d : DIRECTION)
    (hn : InRange side nul) (h : _check_direction side nul d = true) :
    InRange side (nul + offset side d) := by
  unfold InRange GAME_SIZE at *
  push_cast at *
  obtain ⟨h0, h1⟩ := hn
  have hs : (0 : Int) < side := by
    rcases Nat.eq_zero_or_pos side with rfl | hp
    · simp at h1; omega
    · exact_mod_cast hp
  cases d with
  | UP =>
    simp only [_check_direction, decide_eq_true_eq] at h
    simp only [offset]
    constructor <;> omega
  | DOWN =>
    simp only [_check_direction, decide_eq_true_eq, GAME_SIZE] at h
    push_cast at h
    simp only [offset]
    constructor <;> omega
  | LEFT =>
    simp only [_check_direction, decide_eq_true_eq] at h
    simp only [offset]
    have : nul ≠ 0 := by
      rintro rfl
      exact h (Int.zero_tmod _)
    constructor <;> omega
  | RIGHT =>
    simp only [_check_direction, decide_eq_true_eq] at h
    simp only [offset]
    have : nul ≠ (side : Int) * side - 1 := by
      intro e
      apply h
      rw [Int.tmod_eq_emod h0 (by omega), e]
      have e2 : (side : Int) * side - 1 = ((side : Int) - 1) + ((side : Int) - 1) * side := by ring
      rw [e2, Int.add_mul_emod_self]
      exact Int.emod_eq_of_lt (by omega) (by omega)
    constructor <;> omega

/-! ## The claims about `undo` -/

/-- C6 (evaluation at the failing input): `move(19)` on the solved 4 × 4 board (a well-formed
state) succeeds and pushes the record `(19, 15)`, whose first index is not a cell of the
16-cell board; the history is then not empty, yet `undo()` does not return success: its swap
accesses cell 19, outside the board. -/
theorem undo_after_off_board_move :
    WellFormed 4 solved4 ∧ move 4 solved4 19 = some (blank11_after19, true, some 15) ∧
    blank11_after19._states = [(19, 15)] ∧ blank11_after19._states ≠ [] ∧
    blank11_after19._board.length = 16 ∧ readCell blank11_after19._board 19 = none ∧
    qSwap blank11_after19._board 19 15 = none ∧ back_move 4 blank11_after19 = none := by
  decide

/-- On every state whose history is empty `undo()` returns failure with no restored indices and
leaves the whole state unchanged. -/
theorem back_move_of_empty_history (side : Nat) (s : BoardModel) (h : s._states = []) :
    back_move side s = some (s, false, none) := by
  unfold back_move
  rw [h]

/-- On every state whose board is a permutation of `0 .. size-1` and whose history records name
cells of the board, `undo()` returns success, with the newest record as the restored indices,
whenever the history is not empty. -/
theorem back_move_of_coreInv (side : Nat) (s : BoardModel) (hc : CoreInv side s)
    (hne : s._states ≠ []) :
    ∃ t prev rest, s._states = prev :: rest ∧ back_move side s = some (t, true, some prev) ∧
      t._states = rest := by
  obtain ⟨hp, _, hr⟩ := hc
  have hlen := isPermutation_length side _ hp
  cases hst : s._states with
  | nil => exact absurd hst hne
  | cons prev rest =>
    obtain ⟨⟨p10, p11⟩, ⟨p20, p21⟩⟩ := hr prev (by rw [hst]; exact List.mem_cons_self _ _)
    obtain ⟨w, hw, hwl⟩ := qSwap_of_lt s._board prev.1 prev.2 p10 (by rw [hlen]; exact p11)
      p20 (by rw [hlen]; exact p21)
    obtain ⟨b, hb⟩ := check_solved_isSome side w (by omega)
    refine ⟨{ s with _states := rest, _board := w, _nul_index := prev.2,
                     _num_shifts := s._num_shifts - 1, _is_solved := b }, prev, rest, rfl, ?_, rfl⟩
    unfold back_move
    rw [hst]
    simp only [hw, hb]

/-! ## The solved test and the constructors -/

theorem readCell_solvedConfiguration (side i : Nat) (h : i < GAME_SIZE side) :
    readCell (solvedConfiguration side) (i : Int) =
      some (((i + 1) % GAME_SIZE side : Nat) : Int) := by
  unfold readCell solvedConfiguration
  rw [if_pos ⟨by omega, by simpa using h⟩]
  simp [h]

theorem tmod_succ_cast (side i : Nat) :
    Int.tmod ((i : Int) + 1) (GAME_SIZE side : Int) = (((i + 1) % GAME_SIZE side : Nat) : Int) := by
  rw [Int.tmod_eq_emod (by omega) (by omega)]
  push_cast
  rfl

theorem check_solved_loop_solvedConfiguration (side : Nat) (is : List Nat)
    (h : ∀ i ∈ is, i < GAME_SIZE side) (n : Nat) :
    check_solved_loop side (solvedConfiguration side) is n = some n := by
  induction is generalizing n with
  | nil => rfl
  | cons i is ih =>
    unfold check_solved_loop
    rw [readCell_solvedConfiguration side i (h i (List.mem_cons_self _ _))]
    simp only [tmod_succ_cast, ne_eq, not_true_eq_false, if_false]
    exact ih (fun k hk => h k (List.mem_cons_of_mem _ hk)) n

theorem check_solved_solvedConfiguration (side : Nat) :
    _check_solved side (solvedConfiguration side) = some true := by
  unfold _check_solved
  rw [check_solved_loop_solvedConfiguration side _ (fun i hi => List.mem_range.mp hi)]
  rfl

theorem not_solvedConfiguration_of_check (side : Nat) (board : List Int)
    (h : _check_solved side board = some false) : board ≠ solvedConfiguration side := by
  intro e
  rw [e, check_solved_solvedConfiguration] at h
  exact absurd h (by decide)

theorem shuffle_loop_of_unsolved (side : Nat) (s : BoardModel) (walks : List (List DIRECTION))
    (h : s._is_solved = false) : shuffle_loop side s walks = some s := by
  cases walks with
  | nil => simp [shuffle_loop, h]
  | cons w ws => simp [shuffle_loop, h]

theorem shuffle_loop_spec (side : Nat) (walks : List (List DIRECTION)) (s s0 : BoardModel)
    (hs : s._is_solved = true) (h : shuffle_loop side s walks = some s0) :
    s0._is_solved = false ∧ s0._start_board = s0._board ∧
    _check_solved side s0._board = some false ∧
    s0._start_nul_index = s._start_nul_index ∧ s0._start_is_solved = s._start_is_solved ∧
    s0._num_shifts = s._num_shifts ∧ s0._states = s._states := by
  induction walks with
  | nil => simp [shuffle_loop, hs] at h
  | cons w ws ih =>
    unfold shuffle_loop at h
    rw [if_pos hs] at h
    cases hg : _gen_board side w with
    | none => rw [hg] at h; exact absurd h (by simp)
    | some rnd_result =>
      rw [hg] at h
      simp only at h
      cases hc : _check_solved side rnd_result.1 with
      | none => rw [hc] at h; exact absurd h (by simp)
      | some solved =>
        rw [hc] at h
        simp only at h
        cases solved with
        | true =>
          simp only [Bool.not_true, Bool.false_eq_true, if_false] at h
          exact ih h
        | false =>
          simp only [Bool.not_false, if_true] at h
          rw [shuffle_loop_of_unsolved side _ ws rfl] at h
          have e := Option.some.inj h
          subst e
          exact ⟨rfl, rfl, hc, rfl, rfl, rfl, rfl⟩

theorem construct_shuffled_spec (side : Nat) (walks : List (List DIRECTION)) (s0 : BoardModel)
    (h : BoardModel.construct side true walks = some s0) :
    s0._is_solved = false ∧ s0._start_board = s0._board ∧
    _check_solved side s0._board = some false ∧
    s0._start_nul_index = (GAME_SIZE side : Int) - 1 ∧ s0._start_is_solved = true ∧
    s0._num_shifts = 0 ∧ s0._states = [] := by
  unfold BoardModel.construct BoardModel.default at h
  cases hb : _get_solved_board side with
  | none => rw [hb] at h; exact absurd h (by simp)
  | some b =>
    rw [hb] at h
    simp only [Option.map_some', Option.some_bind, if_true] at h
    exact shuffle_loop_spec side walks _ s0 rfl h

theorem move_success_frame (side : Nat) (s t : BoardModel) (idx : Int) (r : Option Int)
    (h : move side s idx = some (t, true, r)) :
    t._num_shifts = s._num_shifts + 1 ∧ t._start_board = s._start_board ∧
    t._start_nul_index = s._start_nul_index ∧ t._start_is_solved = s._start_is_solved := by
  unfold move at h
  cases hb : move_blocks side idx
      { board := s._board, nul_index := s._nul_index, result := false, swap_idx := none } with
  | none => rw [hb] at h; exact absurd h (by simp)
  | some v =>
    rw [hb] at h
    simp only at h
    cases hr : v.result with
    | false => rw [hr] at h; simp at h
    | true =>
      rw [hr] at h
      simp only [if_true] at h
      cases hc : _check_solved side v.board with
      | none => rw [hc] at h; exact absurd h (by simp)
      | some solved =>
        cases hsw : v.swap_idx with
        | none => rw [hc, hsw] at h; exact absurd h (by simp)
        | some sw =>
          rw [hc, hsw] at h
          simp only [Option.some.injEq, Prod.mk.injEq] at h
          rw [← h.1]
          exact ⟨rfl, rfl, rfl, rfl⟩

/-! ## The permutation invariant -/

theorem solved_list_perm (n : Nat) :
    ((List.map (fun (i : Nat) => (i : Int) + 1) (List.range (n + 1))).set n 0).Perm
      (List.map (fun (i : Nat) => (i : Int)) (List.range (n + 1))) := by
  have L : (List.map (fun (i : Nat) => (i : Int) + 1) (List.range (n + 1))).set n 0 =
      List.map (fun (i : Nat) => (i : Int) + 1) (List.range n) ++ [0] := by
    rw [List.range_succ, List.map_append, List.set_append_right _ _ (by simp)]
    simp
  have R : List.map (fun (i : Nat) => (i : Int)) (List.range (n + 1)) =
      0 :: List.map (fun (i : Nat) => (i : Int) + 1) (List.range n) := by
    rw [List.range_succ_eq_map, List.map_cons, List.map_map]
    simp only [Nat.cast_zero, List.cons.injEq, true_and]
    apply List.map_congr_left
    intro a _
    simp
  rw [L, R]
  exact List.perm_append_singleton _ _

theorem get_solved_board_spec (side : Nat) (b : List Int) (h : _get_solved_board side = some b) :
    IsPermutation side b ∧ InRange side ((GAME_SIZE side : Int) - 1) := by
  unfold _get_solved_board writeCell at h
  unfold IsPermutation InRange
  generalize GAME_SIZE side = N at *
  cases N with
  | zero => simp at h
  | succ n =>
    simp only [List.length_map, List.length_range] at h
    rw [if_pos ⟨by omega, by omega⟩] at h
    have e : ((((n + 1 : Nat) : Int)) - 1).toNat = n := by omega
    rw [e] at h
    rw [← Option.some.inj h]
    exact ⟨solved_list_perm n, by omega, by omega⟩

theorem make_move_inv (side : Nat) (board : List Int) (nul : Int) (d : DIRECTION)
    (r : List Int × Int × Bool) (hb : IsPermutation side board) (hn : InRange side nul)
    (h : _make_move side board nul d = some r) : IsPermutation side r.1 ∧ InRange side r.2.1 := by
  by_cases hc : _check_direction side nul d = true
  · rw [make_move_of_check side board nul d hc] at h
    cases hq : qSwap board nul (nul + offset side d) with
    | none => rw [hq] at h; exact absurd h (by simp)
    | some w =>
      rw [hq] at h
      rw [← Option.some.inj h]
      exact ⟨qSwap_isPermutation side board _ _ w hb hq, check_direction_inRange side nul d hn hc⟩
  · unfold _make_move at h
    rw [if_neg hc] at h
    rw [← Option.some.inj h]
    exact ⟨hb, hn⟩

theorem gen_board_loop_inv (side : Nat) (dirs : List DIRECTION) (board : List Int) (nul : Int)
    (r : List Int × Int) (hb : IsPermutation side board) (hn : InRange side nul)
    (h : gen_board_loop side dirs board nul = some r) :
    IsPermutation side r.1 ∧ InRange side r.2 := by
  induction dirs generalizing board nul with
  | nil =>
    unfold gen_board_loop at h
    rw [← Option.some.inj h]
    exact ⟨hb, hn⟩
  | cons d ds ih =>
    unfold gen_board_loop at h
    cases hm : _make_move side board nul d with
    | none => rw [hm] at h; exact absurd h (by simp)
    | some q =>
      rw [hm] at h
      obtain ⟨h1, h2⟩ := make_move_inv side board nul d q hb hn hm
      exact ih q.1 q.2.1 h1 h2 h

theorem gen_board_inv (side : Nat) (dirs : List DIRECTION) (r : List Int × Int)
    (h : _gen_board side dirs = some r) : IsPermutation side r.1 ∧ InRange side r.2 := by
  unfold _gen_board at h
  cases hb : _get_solved_board side with
  | none => rw [hb] at h; exact absurd h (by simp)
  | some b =>
    rw [hb] at h
    obtain ⟨h1, h2⟩ := get_solved_board_spec side b hb
    exact gen_board_loop_inv side dirs b _ r h1 h2 h

theorem shuffle_loop_inv (side : Nat) (walks : List (List DIRECTION)) (s s0 : BoardModel)
    (hs : s._is_solved = true) (h0 : s._states = [])
    (h1 : InRange side s._start_nul_index) (h : shuffle_loop side s walks = some s0) :
    CoreInv side s0 ∧ StartInv side s0 := by
  induction walks with
  | nil => simp [shuffle_loop, hs] at h
  | cons w ws ih =>
    unfold shuffle_loop at h
    rw [if_pos hs] at h
    cases hg : _gen_board side w with
    | none => rw [hg] at h; exact absurd h (by simp)
    | some rnd_result =>
      rw [hg] at h
      simp only at h
      obtain ⟨g1, g2⟩ := gen_board_inv side w rnd_result hg
      cases hc : _check_solved side rnd_result.1 with
      | none => rw [hc] at h; exact absurd h (by simp)
      | some solved =>
        rw [hc] at h
        simp only at h
        cases solved with
        | true =>
          simp only [Bool.not_true, Bool.false_eq_true, if_false] at h
          exact ih h
        | false =>
          simp only [Bool.not_false, if_true] at h
          rw [shuffle_loop_of_unsolved side _ ws rfl] at h
          have e := Option.some.inj h
          subst e
          refine ⟨⟨g1, g2, ?_⟩, ⟨g1, h1⟩⟩
          intro p hp
          simp only [h0] at hp
          exact absurd hp (List.not_mem_nil _)

theorem construct_shuffled_inv (side : Nat) (walks : List (List DIRECTION)) (s0 : BoardModel)
    (h : BoardModel.construct side true walks = some s0) : CoreInv side s0 ∧ StartInv side s0 := by
  unfold BoardModel.construct BoardModel.default at h
  cases hb : _get_solved_board side with
  | none => rw [hb] at h; exact absurd h (by simp)
  | some b =>
    rw [hb] at h
    simp only [Option.map_some', Option.some_bind, if_true] at h
    exact shuffle_loop_inv side walks _ s0 rfl rfl (get_solved_board_spec side b hb).2 h

theorem default_coreInv (side : Nat) (s0 : BoardModel) (h : BoardModel.default side = some s0) :
    CoreInv side s0 := by
  unfold BoardModel.default at h
  cases hb : _get_solved_board side with
  | none => rw [hb] at h; exact absurd h (by simp)
  | some b =>
    rw [hb] at h
    rw [← Option.some.inj h]
    obtain ⟨h1, h2⟩ := get_solved_board_spec side b hb
    exact ⟨h1, h2, fun p hp => absurd hp (List.not_mem_nil _)⟩

theorem inRange_side_pos (side : Nat) (i : Int) (h : InRange side i) : 0 < side := by
  rcases Nat.eq_zero_or_pos side with rfl | hp
  · unfold InRange GAME_SIZE at h
    simp at h
    omega
  · exact hp

theorem move_coreInv (side : Nat) (s t : BoardModel) (idx : Int) (b : Bool) (r : Option Int)
    (hs : CoreInv side s) (hi : InRange side idx) (h : move side s idx = some (t, b, r)) :
    CoreInv side t ∧ t._start_board = s._start_board ∧
      t._start_nul_index = s._start_nul_index := by
  obtain ⟨hp, hn, hr⟩ := hs
  rw [move_eq side (inRange_side_pos side _ hn)] at h
  cases hf : firstMatch side s._nul_index idx with
  | none =>
    rw [hf] at h
    simp only [Option.some.injEq, Prod.mk.injEq] at h
    rw [← h.1]
    exact ⟨⟨hp, hn, hr⟩, rfl, rfl⟩
  | some d =>
    rw [hf] at h
    simp only at h
    have hd : _check_direction side s._nul_index d = true := by
      have hm := List.find?_some hf
      rw [passes_iff] at hm
      exact hm.1
    cases hq : qSwap s._board s._nul_index (s._nul_index + offset side d) with
    | none => rw [hq] at h; simp at h
    | some w =>
      rw [hq] at h
      simp only at h
      cases hc : _check_solved side w with
      | none => rw [hc] at h; simp at h
      | some solved =>
        rw [hc] at h
        simp only [Option.map_some', Option.some.injEq, Prod.mk.injEq] at h
        rw [← h.1]
        refine ⟨⟨qSwap_isPermutation side _ _ _ w hp hq,
          check_direction_inRange side _ d hn hd, ?_⟩, rfl, rfl⟩
        intro p hp2
        rcases List.mem_cons.mp hp2 with rfl | hp3
        · exact ⟨hi, hn⟩
        · exact hr p hp3

theorem back_move_coreInv (side : Nat) (s t : BoardModel) (b : Bool) (r : Option (Int × Int))
    (hs : CoreInv side s) (h : back_move side s = some (t, b, r)) :
    CoreInv side t ∧ t._start_board = s._start_board ∧
      t._start_nul_index = s._start_nul_index := by
  obtain ⟨hp, hn, hr⟩ := hs
  unfold back_move at h
  cases hst : s._states with
  | nil =>
    rw [hst] at h
    simp only [Option.some.injEq, Prod.mk.injEq] at h
    rw [← h.1]
    exact ⟨⟨hp, hn, hr⟩, rfl, rfl⟩
  | cons prev rest =>
    rw [hst] at h
    simp only at h
    cases hq : qSwap s._board prev.1 prev.2 with
    | none => rw [hq] at h; simp at h
    | some w =>
      rw [hq] at h
      simp only at h
      cases hc : _check_solved side w with
      | none => rw [hc] at h; simp at h
      | some solved =>
        rw [hc] at h
        simp only [Option.some.injEq, Prod.mk.injEq] at h
        rw [← h.1]
        have hprev := hr prev (by rw [hst]; exact List.mem_cons_self _ _)
        refine ⟨⟨qSwap_isPermutation side _ _ _ w hp hq, hprev.2, ?_⟩, rfl, rfl⟩
        intro p hp2
        exact hr p (by rw [hst]; exact List.mem_cons_of_mem _ hp2)

theorem set_start_board_inv (side : Nat) (s : BoardModel) (hc : CoreInv side s)
    (hs : StartInv side s) : CoreInv side (set_start_board s) ∧ StartInv side (set_start_board s) := by
  unfold set_start_board
  by_cases hn : s._num_shifts ≠ 0
  · rw [if_pos hn]
    exact ⟨⟨hs.1, hs.2, fun p hp => absurd hp (List.not_mem_nil _)⟩, hs⟩
  · rw [if_neg hn]
    exact ⟨hc, hs⟩

theorem step_move (side : Nat) (s : BoardModel) (idx : Int) :
    step side s (.move idx) = (move side s idx).map (fun r => r.1) := rfl

theorem step_undo (side : Nat) (s : BoardModel) :
    step side s .undo = (back_move side s).map (fun r => r.1) := rfl

theorem step_reset (side : Nat) (s : BoardModel) :
    step side s .reset = some (set_start_board s) := rfl

theorem run_inv (side : Nat) (calls : List Call) (s t : BoardModel)
    (hc : CoreInv side s) (hs : StartInv side s) (ht : TargetsInRange side calls)
    (h : run side s calls = some t) : CoreInv side t ∧ StartInv side t := by
  induction calls generalizing s with
  | nil =>
    unfold run at h
    rw [← Option.some.inj h]
    exact ⟨hc, hs⟩
  | cons c cs ih =>
    unfold run at h
    cases hst : step side s c with
    | none => rw [hst] at h; exact absurd h (by simp)
    | some u =>
      rw [hst] at h
      simp only [Option.some_bind] at h
      have htc : TargetsInRange side cs := fun idx hm => ht idx (List.mem_cons_of_mem _ hm)
      cases c with
      | move idx =>
        rw [step_move] at hst
        cases hm : move side s idx with
        | none => rw [hm] at hst; exact absurd hst (by simp)
        | some q =>
          rw [hm] at hst
          have e : q.1 = u := Option.some.inj hst
          obtain ⟨k1, k2, k3⟩ := move_coreInv side s q.1 idx q.2.1 q.2.2 hc
            (ht idx (List.mem_cons_self _ _)) hm
          rw [e] at k1 k2 k3
          exact ih u k1 ⟨by rw [k2]; exact hs.1, by rw [k3]; exact hs.2⟩ htc h
      | undo =>
        rw [step_undo] at hst
        cases hm : back_move side s with
        | none => rw [hm] at hst; exact absurd hst (by simp)
        | some q =>
          rw [hm] at hst
          have e : q.1 = u := Option.some.inj hst
          obtain ⟨k1, k2, k3⟩ := back_move_coreInv side s q.1 q.2.1 q.2.2 hc hm
          rw [e] at k1 k2 k3
          exact ih u k1 ⟨by rw [k2]; exact hs.1, by rw [k3]; exact hs.2⟩ htc h
      | reset =>
        rw [step_reset] at hst
        have e : set_start_board s = u := Option.some.inj hst
        obtain ⟨k1, k2⟩ := set_start_board_inv side s hc hs
        rw [e] at k1 k2
        exact ih u k1 k2 htc h

/-- In every state reached from a model built by the shuffling constructor through `move` calls
with targets in `0 .. size-1`, `undo` calls and `reset` calls, the board has `size` cells and is
a permutation of `0 .. size-1`. -/
theorem shuffled_reachable_isPermutation (side : Nat) (walks : List (List DIRECTION))
    (calls : List Call) (s0 t : BoardModel)
    (h0 : BoardModel.construct side true walks = some s0) (ht : TargetsInRange side calls)
    (h : run side s0 calls = some t) :
    IsPermutation side t._board ∧ t._board.length = GAME_SIZE side := by
  obtain ⟨k1, k2⟩ := construct_shuffled_inv side walks s0 h0
  obtain ⟨⟨r1, _, _⟩, _⟩ := run_inv side calls s0 t k1 k2 ht h
  exact ⟨r1, isPermutation_length side _ r1⟩

/-- In every state reached from a model built by the default constructor through `move` calls
with targets in `0 .. size-1` and `undo` calls (no `reset`), the board has `size` cells and is a
permutation of `0 .. size-1`. -/
theorem solved_reachable_isPermutation (side : Nat) (calls : List Call) (s0 t : BoardModel)
    (h0 : BoardModel.default side = some s0) (ht : TargetsInRange side calls)
    (hn : Call.reset ∉ calls) (h : run side s0 calls = some t) :
    IsPermutation side t._board ∧ t._board.length = GAME_SIZE side := by
  have key : ∀ (cs : List Call) (s : BoardModel), CoreInv side s → TargetsInRange side cs →
      Call.reset ∉ cs → run side s cs = some t → CoreInv side t := by
    intro cs
    induction cs with
    | nil =>
      intro s hc _ _ hr
      unfold run at hr
      rw [← Option.some.inj hr]
      exact hc
    | cons c cs ih =>
      intro s hc htc hnr hr
      unfold run at hr
      cases hst : step side s c with
      | none => rw [hst] at hr; exact absurd hr (by simp)
      | some u =>
        rw [hst] at hr
        simp only [Option.some_bind] at hr
        have htc2 : TargetsInRange side cs := fun idx hm => htc idx (List.mem_cons_of_mem _ hm)
        have hnr2 : Call.reset ∉ cs := fun hm => hnr (List.mem_cons_of_mem _ hm)
        cases c with
        | move idx =>
          rw [step_move] at hst
          cases hm : move side s idx with
          | none => rw [hm] at hst; exact absurd hst (by simp)
          | some q =>
            rw [hm] at hst
            have e : q.1 = u := Option.some.inj hst
            obtain ⟨k1, _, _⟩ := move_coreInv side s q.1 idx q.2.1 q.2.2 hc
              (htc idx (List.mem_cons_self _ _)) hm
            rw [e] at k1
            exact ih u k1 htc2 hnr2 hr
        | undo =>
          rw [step_undo] at hst
          cases hm : back_move side s with
          | none => rw [hm] at hst; exact absurd hst (by simp)
          | some q =>
            rw [hm] at hst
            have e : q.1 = u := Option.some.inj hst
            obtain ⟨k1, _, _⟩ := back_move_coreInv side s q.1 q.2.1 q.2.2 hc hm
            rw [e] at k1
            exact ih u k1 htc2 hnr2 hr
        | reset => exact absurd (List.mem_cons_self _ _) hnr
  obtain ⟨r1, _, _⟩ := key calls s0 (default_coreInv side s0 h0) ht hn h
  exact ⟨r1, isPermutation_length side _ r1⟩

/-! ## The claims about reachable states -/

/-- C7 (evaluation at the failing inputs): on the 4 × 4 board built solved, the calls
`move(11)`, `move(15)`, `undo()` all succeed and leave tile 12 at the blank index 11; and on the
board built shuffled from the walk `walkLeft` (blank at cell 12), `move(13)` followed by
`reset()` leaves tile 15 at the blank index 15. -/
theorem blank_consistency_broken :
    (BoardModel.construct 4 false [] = some solved4 ∧
      run 4 solved4 [.move 11, .move 15, .undo] = some undone7 ∧
      readCell undone7._board undone7._nul_index = some 12) ∧
    (BoardModel.construct 4 true [walkLeft] = some shuffled12 ∧
      run 4 shuffled12 [.move 13, .reset] = some shuffled12_reset ∧
      readCell shuffled12_reset._board shuffled12_reset._nul_index = some 15) := by
  decide

/-- C8 (evaluation at the failing input): on the 4 × 4 board built solved, `move(14)` followed
by `reset()` leaves an empty board, which has not 16 cells and is no permutation of
`0 .. 15`. -/
theorem reset_of_solved_model_empties_board :
    BoardModel.construct 4 false [] = some solved4 ∧
    run 4 solved4 [.move 14, .reset] = some reset14 ∧ reset14._board = [] ∧
    reset14._board.length ≠ GAME_SIZE 4 ∧ ¬ IsPermutation 4 reset14._board := by
  decide

/-- C9 (the failing inputs): whenever the shuffling constructor returns a model and a `move` on
it succeeds, the `reset()` that follows leaves the solved flag true (so `is_solved()` reports
true) on a board that is not the solved configuration. -/
theorem reset_after_shuffle_reports_solved (side : Nat) (walks : List (List DIRECTION))
    (s0 s1 : BoardModel) (idx : Int) (r : Option Int)
    (hc : BoardModel.construct side true walks = some s0)
    (hm : move side s0 idx = some (s1, true, r)) :
    (set_start_board s1)._is_solved = true ∧ (is_solved (set_start_board s1)).1 = true ∧
    (set_start_board s1)._board ≠ solvedConfiguration side ∧
    _check_solved side (set_start_board s1)._board = some false := by
  obtain ⟨_, h2, h3, _, h5, h6, _⟩ := construct_shuffled_spec side walks s0 hc
  obtain ⟨m1, m2, _, m4⟩ := move_success_frame side s0 s1 idx r hm
  have hn : s1._num_shifts ≠ 0 := by rw [m1, h6]; decide
  have hb : (set_start_board s1)._board = s0._board := by
    unfold set_start_board
    rw [if_pos hn]
    simp only
    rw [m2, h2]
  have hf : (set_start_board s1)._is_solved = true := by
    unfold set_start_board
    rw [if_pos hn]
    simp only
    rw [m4, h5]
  refine ⟨hf, ?_, ?_, ?_⟩
  · unfold is_solved
    rw [if_pos hf]
  · rw [hb]
    exact not_solvedConfiguration_of_check side _ h3
  · rw [hb]
    exact h3

/-- Witness of C9: the 4 × 4 model shuffled by `walkLeft`, then `move(13)` and `reset()`. -/
theorem reset_after_shuffle_reports_solved_witness :
    BoardModel.construct 4 true [walkLeft] = some shuffled12 ∧
    move 4 shuffled12 13 = some (shuffled12_moved, true, some 12) ∧
    ((set_start_board shuffled12_moved)._is_solved = true ∧
      (is_solved (set_start_board shuffled12_moved)).1 = true ∧
      (set_start_board shuffled12_moved)._board ≠ solvedConfiguration 4 ∧
      _check_solved 4 (set_start_board shuffled12_moved)._board = some false) :=
  ⟨by decide, by decide,
    reset_after_shuffle_reports_solved 4 [walkLeft] shuffled12 shuffled12_moved 13 (some 12)
      (by decide) (by decide)⟩

/-- C10 (the failing inputs): whenever the shuffling constructor returns a model and a `move` on
it succeeds, the `reset()` that follows restores the board of the construction, zeroes the
counter and empties the history, but `is_solved()` then returns `(true, 0)` where it returned
`(false, none)` after construction, and the blank index is `size - 1` wherever the blank of
the constructed board is. -/
theorem reset_after_shuffle_not_initial (side : Nat) (walks : List (List DIRECTION))
    (s0 s1 : BoardModel) (idx : Int) (r : Option Int)
    (hc : BoardModel.construct side true walks = some s0)
    (hm : move side s0 idx = some (s1, true, r)) :
    is_solved s0 = (false, none) ∧ is_solved (set_start_board s1) = (true, some 0) ∧
    is_solved (set_start_board s1) ≠ is_solved s0 ∧
    (set_start_board s1)._nul_index = (GAME_SIZE side : Int) - 1 ∧
    get_board (set_start_board s1) = get_board s0 ∧
    (set_start_board s1)._num_shifts = 0 ∧ (set_start_board s1)._states = [] := by
  obtain ⟨h1, h2, _, h4, h5, h6, _⟩ := construct_shuffled_spec side walks s0 hc
  obtain ⟨m1, m2, m3, m4⟩ := move_success_frame side s0 s1 idx r hm
  have hn : s1._num_shifts ≠ 0 := by rw [m1, h6]; decide
  have e : set_start_board s1 =
      { s1 with _board := s1._start_board, _nul_index := s1._start_nul_index,
                _is_solved := s1._start_is_solved, _num_shifts := 0, _states := [] } := by
    unfold set_start_board
    rw [if_pos hn]
  have i0 : is_solved s0 = (false, none) := by
    unfold is_solved
    rw [h1]
    rfl
  have i1 : is_solved (set_start_board s1) = (true, some 0) := by
    rw [e]
    unfold is_solved
    simp only
    rw [m4, h5]
    rfl
  refine ⟨i0, i1, ?_, ?_, ?_, ?_, ?_⟩
  · rw [i0, i1]
    decide
  · rw [e]
    simp only
    rw [m3, h4]
  · rw [e]
    unfold get_board
    simp only
    rw [m2, h2]
  · rw [e]
  · rw [e]

/-- Witness of C10: the 4 × 4 model shuffled by `walkLeft` has its blank at cell 12 and is not
solved; after `move(13)` and `reset()` the blank index is 15 and `is_solved()` returns
`(true, 0)`. -/
theorem reset_after_shuffle_not_initial_witness :
    BoardModel.construct 4 true [walkLeft] = some shuffled12 ∧
    move 4 shuffled12 13 = some (shuffled12_moved, true, some 12) ∧
    shuffled12._nul_index = 12 ∧
    (is_solved shuffled12 = (false, none) ∧
      is_solved (set_start_board shuffled12_moved) = (true, some 0) ∧
      is_solved (set_start_board shuffled12_moved) ≠ is_solved shuffled12 ∧
      (set_start_board shuffled12_moved)._nul_index = (GAME_SIZE 4 : Int) - 1 ∧
      get_board (set_start_board shuffled12_moved) = get_board shuffled12 ∧
      (set_start_board shuffled12_moved)._num_shifts = 0 ∧
      (set_start_board shuffled12_moved)._states = []) :=
  ⟨by decide, by decide, by decide,
    reset_after_shuffle_not_initial 4 [walkLeft] shuffled12 shuffled12_moved 13 (some 12)
      (by decide) (by decide)⟩

/-! ## Reset, the scenario of the specification and the direction tests -/

/-- C11: reset idempotence: for every state, `reset()` applied twice in a row gives exactly the
state that one `reset()` gives (board, blank index, solved flag, counter, history and snapshot);
and `reset()` on a state whose move counter is 0 changes nothing. -/
theorem reset_idempotent (s : BoardModel) :
    set_start_board (set_start_board s) = set_start_board s ∧
    (s._num_shifts = 0 → set_start_board s = s) := by
  constructor
  · by_cases h : s._num_shifts ≠ 0
    · have e : set_start_board s =
          { s with _board := s._start_board, _nul_index := s._start_nul_index,
                   _is_solved := s._start_is_solved, _num_shifts := 0, _states := [] } := by
        unfold set_start_board
        rw [if_pos h]
      rw [e]
      unfold set_start_board
      simp
    · have e : set_start_board s = s := by
        unfold set_start_board
        rw [if_neg h]
      rw [e, e]
  · intro h
    unfold set_start_board
    rw [if_neg (not_not.mpr h)]

/-- Witness of C11: a second `reset()` after `move(13)` and `reset()` on the shuffled 4 × 4
model changes nothing, and `reset()` on the freshly shuffled model (counter 0) changes
nothing. -/
theorem reset_idempotent_witness :
    set_start_board (set_start_board shuffled12_moved) = set_start_board shuffled12_moved ∧
    shuffled12._num_shifts = 0 ∧ set_start_board shuffled12 = shuffled12 :=
  ⟨(reset_idempotent shuffled12_moved).1, rfl, (reset_idempotent shuffled12).2 rfl⟩

/-- C15: the scenario for `side = 4`: the model built solved has the board `[1, ..., 15, 0]`
and blank index 15; `move(14)` succeeds and yields the 16-cell board that differs from the
solved board only in cell 14 (now the blank) and cell 15 (now tile 15), with blank index 14 and
`is_solved()` returning `(false, none)`; the `undo()` that follows succeeds and restores the
board `[1, ..., 15, 0]`, blank index 15 and counter 0, and `is_solved()` returns
`(true, 0)`. -/
theorem scenario_side_four :
    BoardModel.construct 4 false [] = some solved4 ∧
    get_board solved4 = [1, 2, 3, 4, 5, 6, 7, 8, 9, 10, 11, 12, 13, 14, 15, 0] ∧
    solved4._nul_index = 15 ∧
    move 4 solved4 14 = some (blank14, true, some 15) ∧
    get_board blank14 = [1, 2, 3, 4, 5, 6, 7, 8, 9, 10, 11, 12, 13, 14, 0, 15] ∧
    (get_board blank14).length = 16 ∧ blank14._nul_index = 14 ∧
    is_solved blank14 = (false, none) ∧
    back_move 4 blank14 = some (solved4, true, some (14, 15)) ∧
    get_board solved4 = solvedConfiguration 4 ∧ solved4._num_shifts = 0 ∧
    is_solved solved4 = (true, some 0) := by
  decide

/-- C16 (evaluation at the failing inputs): on the 4 × 4 board with the blank at cell 11 and
the target 15, both UP and DOWN pass the edge test and the neighbour test at the blank's
starting position; with the blank at cell 14 and the target 15, both LEFT and RIGHT pass. -/
theorem two_directions_pass_both_tests :
    (InRange 4 11 ∧
      _check_direction 4 11 .UP = true ∧ _check_is_neighbour 4 11 15 .UP = true ∧
      _check_direction 4 11 .DOWN = true ∧ _check_is_neighbour 4 11 15 .DOWN = true) ∧
    (InRange 4 14 ∧
      _check_direction 4 14 .LEFT = true ∧ _check_is_neighbour 4 14 15 .LEFT = true ∧
      _check_direction 4 14 .RIGHT = true ∧ _check_is_neighbour 4 14 15 .RIGHT = true) := by
  unfold InRange
  decide

/-! ## The move counter and the history -/

theorem move_cases (side : Nat) (s t : BoardModel) (idx : Int) (b : Bool) (r : Option Int)
    (h : move side s idx = some (t, b, r)) :
    (b = false ∧ r = none ∧ t = s) ∨
    (b = true ∧ ∃ sw, r = some sw ∧ t._num_shifts = s._num_shifts + 1 ∧
      t._states = (idx, sw) :: s._states) := by
  unfold move at h
  cases hb : move_blocks side idx
      { board := s._board, nul_index := s._nul_index, result := false, swap_idx := none } with
  | none => rw [hb] at h; exact absurd h (by simp)
  | some v =>
    rw [hb] at h
    simp only at h
    cases hr : v.result with
    | true =>
      rw [hr] at h
      simp only [if_true] at h
      cases hc : _check_solved side v.board with
      | none => rw [hc] at h; exact absurd h (by simp)
      | some solved =>
        cases hsw : v.swap_idx with
        | none => rw [hc, hsw] at h; exact absurd h (by simp)
        | some sw =>
          rw [hc, hsw] at h
          simp only [Option.some.injEq, Prod.mk.injEq] at h
          right
          obtain ⟨h1, h2, h3⟩ := h
          rw [← h1]
          exact ⟨h2.symm, sw, h3.symm, rfl, rfl⟩
    | false =>
      rw [hr] at h
      simp only [Bool.false_eq_true, if_false, Option.some.injEq, Prod.mk.injEq] at h
      have hv := move_blocks_no_result side idx _ v hb hr
      left
      obtain ⟨h1, h2, h3⟩ := h
      refine ⟨h2.symm, h3.symm, ?_⟩
      rw [← h1, hv]

theorem back_move_cases (side : Nat) (s t : BoardModel) (b : Bool) (r : Option (Int × Int))
    (h : back_move side s = some (t, b, r)) :
    (b = false ∧ r = none ∧ t = s ∧ s._states = []) ∨
    (b = true ∧ ∃ prev, r = some prev ∧ t._num_shifts = s._num_shifts - 1 ∧
      s._states = prev :: t._states) := by
  unfold back_move at h
  cases hst : s._states with
  | nil =>
    rw [hst] at h
    simp only [Option.some.injEq, Prod.mk.injEq] at h
    left
    exact ⟨h.2.1.symm, h.2.2.symm, h.1.symm, rfl⟩
  | cons prev rest =>
    rw [hst] at h
    simp only at h
    cases hq : qSwap s._board prev.1 prev.2 with
    | none => rw [hq] at h; simp at h
    | some w =>
      rw [hq] at h
      simp only at h
      cases hc : _check_solved side w with
      | none => rw [hc] at h; simp at h
      | some solved =>
        rw [hc] at h
        simp only [Option.some.injEq, Prod.mk.injEq] at h
        right
        obtain ⟨h1, h2, h3⟩ := h
        rw [← h1]
        exact ⟨h2.symm, prev, h3.symm, rfl, rfl⟩

theorem construct_counter (side : Nat) (is_rnd : Bool) (walks : List (List DIRECTION))
    (s0 : BoardModel) (h : BoardModel.construct side is_rnd walks = some s0) :
    s0._num_shifts = 0 ∧ s0._states = [] := by
  cases is_rnd with
  | true =>
    obtain ⟨_, _, _, _, _, h6, h7⟩ := construct_shuffled_spec side walks s0 h
    exact ⟨h6, h7⟩
  | false =>
    unfold BoardModel.construct BoardModel.default at h
    cases hb : _get_solved_board side with
    | none => rw [hb] at h; exact absurd h (by simp)
    | some b =>
      rw [hb] at h
      simp only [Option.map_some', Option.some_bind, Bool.false_eq_true, if_false,
        Option.some.injEq] at h
      rw [← h]
      exact ⟨rfl, rfl⟩

theorem step_counter (side : Nat) (s t : BoardModel) (c : Call)
    (hs : s._num_shifts = (s._states.length : Int)) (h : step side s c = some t) :
    t._num_shifts = (t._states.length : Int) := by
  cases c with
  | move idx =>
    rw [step_move] at h
    cases hm : move side s idx with
    | none => rw [hm] at h; exact absurd h (by simp)
    | some q =>
      rw [hm] at h
      have e : q.1 = t := Option.some.inj h
      rcases move_cases side s q.1 idx q.2.1 q.2.2 hm with ⟨_, _, k⟩ | ⟨_, sw, _, k1, k2⟩
      · rw [← e, k]; exact hs
      · rw [← e, k1, k2, hs]
        simp
  | undo =>
    rw [step_undo] at h
    cases hm : back_move side s with
    | none => rw [hm] at h; exact absurd h (by simp)
    | some q =>
      rw [hm] at h
      have e : q.1 = t := Option.some.inj h
      rcases back_move_cases side s q.1 q.2.1 q.2.2 hm with ⟨_, _, k, _⟩ | ⟨_, prev, _, k1, k2⟩
      · rw [← e, k]; exact hs
      · rw [← e, k1, hs, k2]
        simp
  | reset =>
    rw [step_reset] at h
    rw [← Option.some.inj h]
    unfold set_start_board
    by_cases hn : s._num_shifts ≠ 0
    · rw [if_pos hn]
      rfl
    · rw [if_neg hn]
      exact hs

theorem run_counter (side : Nat) (calls : List Call) (s t : BoardModel)
    (hs : s._num_shifts = (s._states.length : Int)) (h : run side s calls = some t) :
    t._num_shifts = (t._states.length : Int) := by
  induction calls generalizing s with
  | nil =>
    unfold run at h
    rw [← Option.some.inj h]
    exact hs
  | cons c cs ih =>
    unfold run at h
    cases hst : step side s c with
    | none => rw [hst] at h; exact absurd h (by simp)
    | some u =>
      rw [hst] at h
      exact ih u (step_counter side s u c hs hst) h

/-- C19: in every state reached from a model built in either construction mode by any finite
sequence of `move`, `undo` and `reset` calls, the move counter equals the number of records of
the undo history and is not negative; a successful `move` from such a state raises both by
one, a successful `undo` lowers both by one, both are 0 after construction, and both are 0
after a `reset` that takes effect (counter not 0 before). -/
theorem counter_equals_history_length (side : Nat) (is_rnd : Bool)
    (walks : List (List DIRECTION)) (calls : List Call) (s0 t : BoardModel)
    (h0 : BoardModel.construct side is_rnd walks = some s0)
    (h : run side s0 calls = some t) :
    (t._num_shifts = (t._states.length : Int) ∧ 0 ≤ t._num_shifts) ∧
    (∀ idx u r, move side t idx = some (u, true, r) →
      u._num_shifts = t._num_shifts + 1 ∧ u._states.length = t._states.length + 1) ∧
    (∀ u r, back_move side t = some (u, true, r) →
      u._num_shifts = t._num_shifts - 1 ∧ u._states.length + 1 = t._states.length) ∧
    (s0._num_shifts = 0 ∧ s0._states.length = 0) ∧
    (t._num_shifts ≠ 0 →
      (set_start_board t)._num_shifts = 0 ∧ (set_start_board t)._states.length = 0) := by
  obtain ⟨c1, c2⟩ := construct_counter side is_rnd walks s0 h0
  have inv : t._num_shifts = (t._states.length : Int) :=
    run_counter side calls s0 t (by rw [c1, c2]; rfl) h
  refine ⟨⟨inv, by omega⟩, ?_, ?_, ⟨c1, by rw [c2]; rfl⟩, ?_⟩
  · intro idx u r hm
    rcases move_cases side t u idx true r hm with ⟨k, _⟩ | ⟨_, sw, _, k1, k2⟩
    · exact absurd k (by decide)
    · exact ⟨k1, by rw [k2]; rfl⟩
  · intro u r hm
    rcases back_move_cases side t u true r hm with ⟨k, _⟩ | ⟨_, prev, _, k1, k2⟩
    · exact absurd k (by decide)
    · exact ⟨k1, by rw [k2]; rfl⟩
  · intro hn
    unfold set_start_board
    rw [if_pos hn]
    exact ⟨rfl, rfl⟩

/-- Witness of C19: the shuffled 4 × 4 model after `move(13)` has counter 1 and one record. -/
theorem counter_equals_history_length_witness :
    BoardModel.construct 4 true [walkLeft] = some shuffled12 ∧
    run 4 shuffled12 [.move 13] = some shuffled12_moved ∧
    shuffled12_moved._num_shifts = 1 ∧ shuffled12_moved._states.length = 1 ∧
    (shuffled12_moved._num_shifts = (shuffled12_moved._states.length : Int) ∧
      0 ≤ shuffled12_moved._num_shifts) :=
  ⟨by decide, by decide, by decide, by decide,
    (counter_equals_history_length 4 true [walkLeft] [.move 13] shuffled12 shuffled12_moved
      (by decide) (by decide)).1⟩

/-! ## The solved board and the blank cell -/

theorem get_solved_board_eq (side : Nat) (hs : 0 < side) :
    _get_solved_board side = some (solvedConfiguration side) := by
  have hN : 0 < GAME_SIZE side := Nat.mul_pos hs hs
  unfold _get_solved_board writeCell solvedConfiguration
  generalize GAME_SIZE side = N at *
  cases N with
  | zero => exact absurd hN (by decide)
  | succ n =>
    simp only [List.length_map, List.length_range]
    rw [if_pos ⟨by omega, by omega⟩]
    have e : ((((n + 1 : Nat) : Int)) - 1).toNat = n := by omega
    rw [e, List.range_succ, List.map_append, List.map_append,
      List.set_append_right _ _ (by simp)]
    simp only [List.length_map, List.length_range, Nat.sub_self, List.map_cons, List.map_nil,
      List.set_cons_zero, Nat.mod_self, Nat.cast_zero, Option.some.injEq]
    congr 1
    · apply List.map_congr_left
      intro a ha
      have : a < n := List.mem_range.mp ha
      rw [Nat.mod_eq_of_lt (by omega)]
      push_cast
      rfl

theorem readCell_natCast_of_length (v : List Int) (k : Nat) (x : Int) (h : k < v.length)
    (hx : v[k] = x) : readCell v (k : Int) = some x := by
  rw [readCell_natCast v k h, hx]

theorem qSwap_readCell_target (v : List Int) (i j : Int) (w : List Int)
    (h : qSwap v i j = some w) : readCell w j = readCell v i := by
  obtain ⟨⟨hi0, hi1⟩, ⟨hj0, hj1⟩⟩ := qSwap_inRange v i j w h
  obtain ⟨a, rfl⟩ := Int.eq_ofNat_of_zero_le hi0
  obtain ⟨b, rfl⟩ := Int.eq_ofNat_of_zero_le hj0
  have ha : a < v.length := by omega
  have hb : b < v.length := by omega
  rw [qSwap_natCast v a b ha hb] at h
  have e := Option.some.inj h
  subst e
  rw [readCell_natCast v a ha, readCell_natCast _ b (by simpa using hb)]
  simp

theorem qSwap_readCell_other (v : List Int) (i j k : Int) (w : List Int)
    (h : qSwap v i j = some w) (hi : k ≠ i) (hj : k ≠ j) : readCell w k = readCell v k := by
  obtain ⟨⟨hi0, hi1⟩, ⟨hj0, hj1⟩⟩ := qSwap_inRange v i j w h
  obtain ⟨a, rfl⟩ := Int.eq_ofNat_of_zero_le hi0
  obtain ⟨b, rfl⟩ := Int.eq_ofNat_of_zero_le hj0
  have ha : a < v.length := by omega
  have hb : b < v.length := by omega
  rw [qSwap_natCast v a b ha hb] at h
  have e := Option.some.inj h
  subst e
  unfold readCell
  simp only [List.length_set]
  by_cases hk : 0 ≤ k ∧ k < v.length
  · rw [if_pos hk, if_pos hk]
    have h1 : b ≠ k.toNat := by omega
    have h2 : a ≠ k.toNat := by omega
    rw [List.getElem?_set_ne h1, List.getElem?_set_ne h2]
  · rw [if_neg hk, if_neg hk]

theorem make_move_blank (side : Nat) (board : List Int) (nul : Int) (d : DIRECTION)
    (r : List Int × Int × Bool) (h0 : readCell board nul = some 0)
    (h : _make_move side board nul d = some r) : readCell r.1 r.2.1 = some 0 := by
  by_cases hc : _check_direction side nul d = true
  · rw [make_move_of_check side board nul d hc] at h
    cases hq : qSwap board nul (nul + offset side d) with
    | none => rw [hq] at h; exact absurd h (by simp)
    | some w =>
      rw [hq] at h
      rw [← Option.some.inj h]
      simp only
      rw [qSwap_readCell_target board _ _ w hq]
      exact h0
  · unfold _make_move at h
    rw [if_neg hc] at h
    rw [← Option.some.inj h]
    exact h0

theorem gen_board_loop_blank (side : Nat) (dirs : List DIRECTION) (board : List Int) (nul : Int)
    (r : List Int × Int) (h0 : readCell board nul = some 0)
    (h : gen_board_loop side dirs board nul = some r) : readCell r.1 r.2 = some 0 := by
  induction dirs generalizing board nul with
  | nil =>
    unfold gen_board_loop at h
    rw [← Option.some.inj h]
    exact h0
  | cons d ds ih =>
    unfold gen_board_loop at h
    cases hm : _make_move side board nul d with
    | none => rw [hm] at h; exact absurd h (by simp)
    | some q =>
      rw [hm] at h
      exact ih q.1 q.2.1 (make_move_blank side board nul d q h0 hm) h

theorem get_solved_board_blank (side : Nat) (b : List Int) (h : _get_solved_board side = some b) :
    readCell b ((GAME_SIZE side : Int) - 1) = some 0 := by
  unfold _get_solved_board writeCell at h
  by_cases hc : 0 ≤ (GAME_SIZE side : Int) - 1 ∧ (GAME_SIZE side : Int) - 1 <
      ((List.map (fun (i : Nat) => (i : Int) + 1) (List.range (GAME_SIZE side))).length : Int)
  · rw [if_pos hc] at h
    rw [← Option.some.inj h]
    unfold readCell
    rw [if_pos (by simpa using hc)]
    rw [List.getElem?_set_self (by simp at hc ⊢; omega)]
    rfl
  · rw [if_neg hc] at h
    exact absurd h (by simp)

theorem gen_board_blank (side : Nat) (dirs : List DIRECTION) (r : List Int × Int)
    (h : _gen_board side dirs = some r) : readCell r.1 r.2 = some 0 := by
  unfold _gen_board at h
  cases hb : _get_solved_board side with
  | none => rw [hb] at h; exact absurd h (by simp)
  | some b =>
    rw [hb] at h
    exact gen_board_loop_blank side dirs b _ r (get_solved_board_blank side b hb) h

theorem shuffle_loop_origin (side : Nat) (walks : List (List DIRECTION)) (s s0 : BoardModel)
    (hs : s._is_solved = true) (h : shuffle_loop side s walks = some s0) :
    ∃ w ∈ walks, _gen_board side w = some (s0._board, s0._nul_index) := by
  induction walks with
  | nil => simp [shuffle_loop, hs] at h
  | cons w ws ih =>
    unfold shuffle_loop at h
    rw [if_pos hs] at h
    cases hg : _gen_board side w with
    | none => rw [hg] at h; exact absurd h (by simp)
    | some rnd_result =>
      rw [hg] at h
      simp only at h
      cases hc : _check_solved side rnd_result.1 with
      | none => rw [hc] at h; exact absurd h (by simp)
      | some solved =>
        rw [hc] at h
        simp only at h
        cases solved with
        | true =>
          simp only [Bool.not_true, Bool.false_eq_true, if_false] at h
          obtain ⟨w2, hw2, hg2⟩ := ih h
          exact ⟨w2, List.mem_cons_of_mem _ hw2, hg2⟩
        | false =>
          simp only [Bool.not_false, if_true] at h
          rw [shuffle_loop_of_unsolved side _ ws rfl] at h
          have e := Option.some.inj h
          subst e
          exact ⟨w, List.mem_cons_self _ _, hg⟩

theorem construct_shuffled_origin (side : Nat) (walks : List (List DIRECTION))
    (s0 : BoardModel) (h : BoardModel.construct side true walks = some s0) :
    ∃ w ∈ walks, _gen_board side w = some (s0._board, s0._nul_index) := by
  unfold BoardModel.construct BoardModel.default at h
  cases hb : _get_solved_board side with
  | none => rw [hb] at h; exact absurd h (by simp)
  | some b =>
    rw [hb] at h
    simp only [Option.map_some', Option.some_bind, if_true] at h
    exact shuffle_loop_origin side walks _ s0 rfl h

/-! ## The claims about construction and well-formedness -/

/-- C14: on a grid of positive side, solved-mode construction returns a model whose board has
`size` cells, cell `i` holding `(i + 1) mod size` (so the last cell holds 0), with blank index
`size - 1`, solved flag true, move counter 0 and an empty history; `is_solved()` returns
`(true, 0)` on it and `undo()` fails, leaving it unchanged. -/
theorem solved_construction (side : Nat) (hs : 0 < side) (walks : List (List DIRECTION)) :
    ∃ s, BoardModel.construct side false walks = some s ∧ BoardModel.default side = some s ∧
      s._board = solvedConfiguration side ∧ s._board.length = GAME_SIZE side ∧
      (∀ i : Nat, i < GAME_SIZE side →
        readCell s._board (i : Int) = some (((i + 1) % GAME_SIZE side : Nat) : Int)) ∧
      readCell s._board ((GAME_SIZE side : Int) - 1) = some 0 ∧
      s._nul_index = (GAME_SIZE side : Int) - 1 ∧ s._is_solved = true ∧
      s._num_shifts = 0 ∧ s._states = [] ∧
      is_solved s = (true, some 0) ∧ back_move side s = some (s, false, none) := by
  have hd : BoardModel.default side = some
      { _board := solvedConfiguration side, _nul_index := (GAME_SIZE side : Int) - 1,
        _is_solved := true, _start_board := [],
        _start_nul_index := (GAME_SIZE side : Int) - 1, _start_is_solved := true,
        _num_shifts := 0, _states := [] } := by
    unfold BoardModel.default
    rw [get_solved_board_eq side hs]
    rfl
  refine ⟨_, ?_, hd, rfl, ?_, ?_, ?_, rfl, rfl, rfl, rfl, rfl, rfl⟩
  · unfold BoardModel.construct
    rw [hd]
    rfl
  · simp [solvedConfiguration]
  · intro i hi
    exact readCell_solvedConfiguration side i hi
  · exact get_solved_board_blank side _ (get_solved_board_eq side hs)

/-- Witness of C14: the grid of side 4. -/
theorem solved_construction_witness :
    0 < 4 ∧ BoardModel.construct 4 false [] = some solved4 ∧
    ∃ s, BoardModel.construct 4 false [] = some s ∧ BoardModel.default 4 = some s ∧
      s._board = solvedConfiguration 4 ∧ s._board.length = GAME_SIZE 4 ∧
      (∀ i : Nat, i < GAME_SIZE 4 →
        readCell s._board (i : Int) = some (((i + 1) % GAME_SIZE 4 : Nat) : Int)) ∧
      readCell s._board ((GAME_SIZE 4 : Int) - 1) = some 0 ∧
      s._nul_index = (GAME_SIZE 4 : Int) - 1 ∧ s._is_solved = true ∧
      s._num_shifts = 0 ∧ s._states = [] ∧
      is_solved s = (true, some 0) ∧ back_move 4 s = some (s, false, none) :=
  ⟨by decide, by decide, solved_construction 4 (by decide) []⟩

/-- C12: shuffle non-degeneracy: whenever shuffled-mode construction returns a model (for any
directions drawn, so for every complexity), its board is not the solved configuration,
`is_solved()` reports false on it, and the cell at its blank index holds 0. -/
theorem shuffle_non_degenerate (side : Nat) (walks : List (List DIRECTION)) (s0 : BoardModel)
    (h : BoardModel.construct side true walks = some s0) :
    s0._board ≠ solvedConfiguration side ∧ is_solved s0 = (false, none) ∧
    readCell s0._board s0._nul_index = some 0 := by
  obtain ⟨h1, _, h3, _⟩ := construct_shuffled_spec side walks s0 h
  obtain ⟨w, _, hg⟩ := construct_shuffled_origin side walks s0 h
  refine ⟨not_solvedConfiguration_of_check side _ h3, ?_, gen_board_blank side w _ hg⟩
  unfold is_solved
  rw [h1]
  rfl

/-- Witness of C12: the 4 × 4 model shuffled by `walkLeft`. -/
theorem shuffle_non_degenerate_witness :
    BoardModel.construct 4 true [walkLeft] = some shuffled12 ∧
    (shuffled12._board ≠ solvedConfiguration 4 ∧ is_solved shuffled12 = (false, none) ∧
      readCell shuffled12._board shuffled12._nul_index = some 0) :=
  ⟨by decide, shuffle_non_degenerate 4 [walkLeft] shuffled12 (by decide)⟩

theorem move_wellFormed_step (side : Nat) (s : BoardModel) (idx : Int)
    (hw : WellFormed side s) :
    ∃ t b r, move side s idx = some (t, b, r) ∧ WellFormed side t ∧
      t._board.length = GAME_SIZE side := by
  have hs := wellFormed_side_pos side s hw
  obtain ⟨hp, h0, h1, hz⟩ := hw
  have hlen := isPermutation_length side _ hp
  rw [move_eq side hs]
  cases hf : firstMatch side s._nul_index idx with
  | none => exact ⟨s, false, none, rfl, ⟨hp, h0, h1, hz⟩, hlen⟩
  | some d =>
    have hd : _check_direction side s._nul_index d = true := by
      have hm := List.find?_some hf
      rw [passes_iff] at hm
      exact hm.1
    have hr := check_direction_inRange side _ d ⟨h0, h1⟩ hd
    obtain ⟨w, hq, hwl⟩ := qSwap_of_lt s._board s._nul_index (s._nul_index + offset side d)
      h0 (by rw [hlen]; exact h1) hr.1 (by rw [hlen]; exact hr.2)
    obtain ⟨c, hc⟩ := check_solved_isSome side w (by omega)
    simp only [hq, hc, Option.map_some']
    refine ⟨_, true, some s._nul_index, rfl, ⟨?_, hr.1, hr.2, ?_⟩, by simp only; omega⟩
    · exact qSwap_isPermutation side _ _ _ w hp hq
    · simp only
      rw [qSwap_readCell_target _ _ _ w hq]
      exact hz

/-- C20: `move` preserves well-formedness for every integer target: on a well-formed state
`move(target)` returns (every cell of the board that it reads or writes has an index in
`0 .. size-1`), and the state it leaves is well-formed again: the board is a permutation of
`0 .. size-1` with `size` cells, the blank index is in `0 .. size-1` and the cell at the blank
index holds 0. -/
theorem move_preserves_wellFormed (side : Nat) (s : BoardModel) (idx : Int)
    (hw : WellFormed side s) :
    ∃ t b r, move side s idx = some (t, b, r) ∧ WellFormed side t ∧
      t._board.length = GAME_SIZE side :=
  move_wellFormed_step side s idx hw

/-- Witness of C20: `move(15)` on the 4 × 4 board with the blank at cell 11. -/
theorem move_preserves_wellFormed_witness :
    WellFormed 4 blank11 ∧ WellFormed 4 blank7 ∧ move 4 blank11 15 = some (blank7, true, some 11) ∧
    ∃ t b r, move 4 blank11 15 = some (t, b, r) ∧ WellFormed 4 t ∧
      t._board.length = GAME_SIZE 4 :=
  ⟨by decide, by decide, by decide, move_preserves_wellFormed 4 blank11 15 (by decide)⟩

/-! ## Stopping after the first block that matches -/

theorem move_blocks_counted_eq (side : Nat) (hs : 0 < side) (idx : Int) (v : MoveVars) :
    move_blocks_counted side idx v =
      (move_blocks side idx v).map
        (fun w => (w, if (firstMatch side v.nul_index idx).isSome then 1 else 0)) := by
  unfold move_blocks_counted move_blocks move_block_counted firstMatch
  simp only [move_block_eq, List.find?]
  by_cases hU : passes side v.nul_index idx .UP = true
  · have h1 := no_pass_after_up side hs _ _ hU .DOWN (by decide)
    have h2 := no_pass_after_up side hs _ _ hU .LEFT (by decide)
    have h3 := no_pass_after_up side hs _ _ hU .RIGHT (by decide)
    simp only [hU, if_true]
    cases qSwap v.board v.nul_index (v.nul_index + offset side .UP) with
    | none => rfl
    | some b => simp [h1, h2, h3]
  · simp only [hU, if_false, Option.some_bind, Bool.false_eq_true, Option.map_some']
    by_cases hD : passes side v.nul_index idx .DOWN = true
    · have h2 := no_pass_after_down side hs _ _ hD .LEFT (by simp)
      have h3 := no_pass_after_down side hs _ _ hD .RIGHT (by simp)
      simp only [hD, if_true]
      cases qSwap v.board v.nul_index (v.nul_index + offset side .DOWN) with
      | none => rfl
      | some b => simp [h2, h3]
    · simp only [hD, if_false, Option.some_bind, Bool.false_eq_true, Option.map_some']
      by_cases hL : passes side v.nul_index idx .LEFT = true
      · have h3 := no_pass_after_left side _ _ hL
        simp only [hL, if_true]
        cases qSwap v.board v.nul_index (v.nul_index + offset side .LEFT) with
        | none => rfl
        | some b => simp [h3]
      · simp only [hL, if_false, Option.some_bind, Bool.false_eq_true, Option.map_some']
        by_cases hR : passes side v.nul_index idx .RIGHT = true
        · simp only [hR, if_true]
          cases qSwap v.board v.nul_index (v.nul_index + offset side .RIGHT) with
          | none => rfl
          | some b => simp
        · simp [hR]

theorem move_blocks_short_circuit_eq (side : Nat) (idx : Int) (v : MoveVars)
    (hv : v.result = false) :
    move_blocks_short_circuit side idx v =
      match firstMatch side v.nul_index idx with
      | none => some v
      | some d => fired side v d := by
  unfold move_blocks_short_circuit firstMatch
  simp only [move_block_eq, List.find?]
  by_cases hU : passes side v.nul_index idx .UP = true
  · simp only [hU, if_true, fired]
    cases qSwap v.board v.nul_index (v.nul_index + offset side .UP) with
    | none => rfl
    | some b => simp
  · simp only [hU, if_false, hv, Bool.false_eq_true]
    by_cases hD : passes side v.nul_index idx .DOWN = true
    · simp only [hD, if_true, fired]
      cases qSwap v.board v.nul_index (v.nul_index + offset side .DOWN) with
      | none => rfl
      | some b => simp
    · simp only [hD, if_false, hv, Bool.false_eq_true]
      by_cases hL : passes side v.nul_index idx .LEFT = true
      · simp only [hL, if_true, fired]
        cases qSwap v.board v.nul_index (v.nul_index + offset side .LEFT) with
        | none => rfl
        | some b => simp
      · simp only [hL, if_false, hv, Bool.false_eq_true]
        by_cases hR : passes side v.nul_index idx .RIGHT = true
        · simp [hR, fired]
        · simp [hR]

theorem move_short_circuit_eq_move (side : Nat) (hs : 0 < side) (s : BoardModel) (idx : Int) :
    move_short_circuit side s idx = move side s idx := by
  unfold move_short_circuit move
  rw [move_blocks_short_circuit_eq side idx _ rfl, move_blocks_eq side hs]

/-- C17: short-circuit equivalence: for every well-formed state and every integer target,
`move` as written (all four blocks, in the order UP, DOWN, LEFT, RIGHT, each working on the
blank index as the previous block left it) returns, makes at most one swap, and returns the
same state and the same value as the variant that stops after the first block that matches. -/
theorem move_short_circuit_equivalence (side : Nat) (s : BoardModel) (idx : Int)
    (hw : WellFormed side s) :
    (∃ res, move side s idx = some res ∧ move_short_circuit side s idx = some res) ∧
    (∃ v n, move_blocks_counted side idx
        { board := s._board, nul_index := s._nul_index, result := false, swap_idx := none } =
          some (v, n) ∧
      move_blocks side idx
        { board := s._board, nul_index := s._nul_index, result := false, swap_idx := none } =
          some v ∧ n ≤ 1) := by
  have hs := wellFormed_side_pos side s hw
  obtain ⟨t, b, r, hm, _⟩ := move_wellFormed_step side s idx hw
  refine ⟨⟨(t, b, r), hm, by rw [move_short_circuit_eq_move side hs]; exact hm⟩, ?_⟩
  rw [move_blocks_counted_eq side hs]
  cases hb : move_blocks side idx
      { board := s._board, nul_index := s._nul_index, result := false, swap_idx := none } with
  | none =>
    unfold move at hm
    rw [hb] at hm
    exact absurd hm (by simp)
  | some v =>
    refine ⟨v, _, rfl, rfl, ?_⟩
    split <;> omega

/-- Witness of C17: `move(15)` on the 4 × 4 board with the blank at cell 11, where both UP and
DOWN pass their tests at the start: one swap is made and both variants return `blank7`. -/
theorem move_short_circuit_equivalence_witness :
    WellFormed 4 blank11 ∧ move 4 blank11 15 = some (blank7, true, some 11) ∧
    move_short_circuit 4 blank11 15 = some (blank7, true, some 11) ∧
    (move_blocks_counted 4 15
        { board := blank11._board, nul_index := blank11._nul_index, result := false,
          swap_idx := none }).map (fun p => p.2) = some 1 ∧
    ((∃ res, move 4 blank11 15 = some res ∧ move_short_circuit 4 blank11 15 = some res) ∧
    (∃ v n, move_blocks_counted 4 15
        { board := blank11._board, nul_index := blank11._nul_index, result := false,
          swap_idx := none } = some (v, n) ∧
      move_blocks 4 15
        { board := blank11._board, nul_index := blank11._nul_index, result := false,
          swap_idx := none } = some v ∧ n ≤ 1)) :=
  ⟨by decide, by decide, by decide, by decide,
    move_short_circuit_equivalence 4 blank11 15 (by decide)⟩

/-! ## The random walk and its inverse -/

theorem swap_swap (v : List Int) (a b : Nat) (ha : a < v.length) (hb : b < v.length)
    (h1 : b < ((v.set a v[b]).set b v[a]).length) (h2 : a < ((v.set a v[b]).set b v[a]).length) :
    ((((v.set a v[b]).set b v[a]).set b (((v.set a v[b]).set b v[a])[a])).set a
      (((v.set a v[b]).set b v[a])[b])) = v := by
  apply List.ext_getElem
  · simp
  · intro k hk1 hk2
    simp only [List.getElem_set]
    split_ifs <;> simp_all

theorem qSwap_involution (v : List Int) (i j : Int) (w : List Int) (h : qSwap v i j = some w) :
    qSwap w j i = some v := by
  obtain ⟨⟨hi0, hi1⟩, ⟨hj0, hj1⟩⟩ := qSwap_inRange v i j w h
  obtain ⟨a, rfl⟩ := Int.eq_ofNat_of_zero_le hi0
  obtain ⟨b, rfl⟩ := Int.eq_ofNat_of_zero_le hj0
  have ha : a < v.length := by omega
  have hb : b < v.length := by omega
  rw [qSwap_natCast v a b ha hb] at h
  have e := Option.some.inj h
  subst e
  rw [qSwap_natCast _ b a (by simpa using hb) (by simpa using ha)]
  rw [swap_swap v a b ha hb]

theorem offset_opposite (side : Nat) (d : DIRECTION) :
    offset side (opposite d) = - offset side d := by
  cases d <;> simp [offset, opposite]

theorem check_direction_opposite (side : Nat) (nul : Int) (d : DIRECTION)
    (hn : InRange side nul) (h : _check_direction side nul d = true) :
    _check_direction side (nul + offset side d) (opposite d) = true := by
  have hr := check_direction_inRange side nul d hn h
  unfold InRange GAME_SIZE at *
  push_cast at *
  obtain ⟨h0, h1⟩ := hn
  obtain ⟨r0, r1⟩ := hr
  have hs : (0 : Int) < side := by
    rcases Nat.eq_zero_or_pos side with rfl | hp
    · simp at h1; omega
    · exact_mod_cast hp
  cases d with
  | UP =>
    simp only [_check_direction, decide_eq_true_eq, opposite, offset, GAME_SIZE] at h r0 r1 ⊢
    push_cast
    omega
  | DOWN =>
    simp only [_check_direction, decide_eq_true_eq, opposite, offset, GAME_SIZE] at h r0 r1 ⊢
    omega
  | LEFT =>
    simp only [_check_direction, decide_eq_true_eq, opposite, offset] at h r0 r1 ⊢
    rw [Int.tmod_eq_emod h0 (by omega)] at h
    rw [Int.tmod_eq_emod r0 (by omega)]
    intro e
    apply h
    have hq := Int.emod_add_ediv (nul + -1) (side : Int)
    have e2 : nul = (side : Int) * ((nul + -1) / (side : Int) + 1) := by
      rw [mul_add, mul_one]
      omega
    rw [e2]
    exact Int.mul_emod_right _ _
  | RIGHT =>
    simp only [_check_direction, decide_eq_true_eq, opposite, offset] at h r0 r1 ⊢
    rw [Int.tmod_eq_emod h0 (by omega)] at h
    rw [Int.tmod_eq_emod r0 (by omega)]
    intro e
    apply h
    have hq := Int.emod_add_ediv (nul + 1) (side : Int)
    have e2 : nul = ((side : Int) - 1) + (side : Int) * ((nul + 1) / (side : Int) - 1) := by
      rw [mul_sub, mul_one]
      omega
    rw [e2, Int.add_mul_emod_self_left]
    exact Int.emod_eq_of_lt (by omega) (by omega)

theorem make_move_and_back (side : Nat) (board : List Int) (nul : Int) (d : DIRECTION)
    (hl : board.length = GAME_SIZE side) (hn : InRange side nul)
    (h : _check_direction side nul d = true) :
    ∃ w, _make_move side board nul d = some (w, nul + offset side d, true) ∧
      w.length = GAME_SIZE side ∧ InRange side (nul + offset side d) ∧
      _make_move side w (nul + offset side d) (opposite d) = some (board, nul, true) := by
  have hr := check_direction_inRange side nul d hn h
  obtain ⟨w, hq, hwl⟩ := qSwap_of_lt board nul (nul + offset side d) hn.1
    (by rw [hl]; exact hn.2) hr.1 (by rw [hl]; exact hr.2)
  refine ⟨w, ?_, by rw [hwl, hl], hr, ?_⟩
  · rw [make_move_of_check side board nul d h, hq]
    rfl
  · rw [make_move_of_check side w _ (opposite d) (check_direction_opposite side nul d hn h),
      offset_opposite]
    have e : nul + offset side d + -offset side d = nul := by omega
    rw [e, qSwap_involution board nul _ w hq]
    rfl

theorem make_move_of_not_check (side : Nat) (board : List Int) (nul : Int) (d : DIRECTION)
    (h : _check_direction side nul d = false) :
    _make_move side board nul d = some (board, nul, false) := by
  unfold _make_move
  rw [h]
  rfl

theorem valid_moves_append (side : Nat) (xs ys : List DIRECTION) (board : List Int) (nul : Int) :
    valid_moves side (xs ++ ys) board nul =
      (valid_moves side xs board nul).bind (fun r => valid_moves side ys r.1 r.2) := by
  induction xs generalizing board nul with
  | nil => rfl
  | cons d ds ih =>
    simp only [List.cons_append, valid_moves]
    cases hm : _make_move side board nul d with
    | none => rfl
    | some q =>
      obtain ⟨b, z, f⟩ := q
      cases f with
      | true => exact ih b z
      | false => rfl

theorem walk_and_back (side : Nat) (dirs : List DIRECTION) (board : List Int) (nul : Int)
    (hl : board.length = GAME_SIZE side) (hn : InRange side nul) :
    ∃ b z, gen_board_loop side dirs board nul = some (b, z) ∧
      valid_moves side (effective_steps side dirs nul) board nul = some (b, z) ∧
      valid_moves side ((effective_steps side dirs nul).reverse.map opposite) b z =
        some (board, nul) := by
  induction dirs generalizing board nul with
  | nil => exact ⟨board, nul, rfl, rfl, rfl⟩
  | cons d ds ih =>
    cases hc : _check_direction side nul d with
    | false =>
      obtain ⟨b, z, h1, h2, h3⟩ := ih board nul hl hn
      refine ⟨b, z, ?_, ?_, ?_⟩
      · unfold gen_board_loop
        rw [make_move_of_not_check side board nul d hc]
        exact h1
      · unfold effective_steps
        rw [hc]
        exact h2
      · unfold effective_steps
        rw [hc]
        exact h3
    | true =>
      obtain ⟨w, m1, m2, m3, m4⟩ := make_move_and_back side board nul d hl hn hc
      obtain ⟨b, z, h1, h2, h3⟩ := ih w (nul + offset side d) m2 m3
      refine ⟨b, z, ?_, ?_, ?_⟩
      · unfold gen_board_loop
        rw [m1]
        exact h1
      · unfold effective_steps
        rw [hc]
        simp only [if_true]
        unfold valid_moves
        rw [m1]
        exact h2
      · unfold effective_steps
        rw [hc]
        simp only [if_true, List.reverse_cons, List.map_append, List.map_cons, List.map_nil]
        rw [valid_moves_append, h3]
        simp only [Option.some_bind, valid_moves]
        rw [m4]

/-- C18: on a grid of positive side, for every finite sequence of directions the random walk
`_gen_board` returns a board and a blank index; the same board and blank index are reached
from the solved configuration (blank at `size - 1`) by the walk's effective steps alone, each
of them a valid single-step move; replaying the effective steps in reverse order with opposite
directions through `_make_move`, each step valid, leads exactly back to the solved board with
blank index `size - 1`; and a step whose direction fails the edge test changes neither the
board nor the blank index. -/
theorem walk_is_reversible (side : Nat) (hs : 0 < side) (dirs : List DIRECTION) :
    (∃ b z, _gen_board side dirs = some (b, z) ∧
      valid_moves side (effective_steps side dirs ((GAME_SIZE side : Int) - 1))
        (solvedConfiguration side) ((GAME_SIZE side : Int) - 1) = some (b, z) ∧
      valid_moves side
        ((effective_steps side dirs ((GAME_SIZE side : Int) - 1)).reverse.map opposite) b z =
          some (solvedConfiguration side, (GAME_SIZE side : Int) - 1)) ∧
    (∀ (board : List Int) (nul : Int) (d : DIRECTION), _check_direction side nul d = false →
      _make_move side board nul d = some (board, nul, false)) := by
  constructor
  · have hl : (solvedConfiguration side).length = GAME_SIZE side := by
      simp [solvedConfiguration]
    have hn : InRange side ((GAME_SIZE side : Int) - 1) :=
      (get_solved_board_spec side _ (get_solved_board_eq side hs)).2
    obtain ⟨b, z, h1, h2, h3⟩ := walk_and_back side dirs (solvedConfiguration side) _ hl hn
    refine ⟨b, z, ?_, h2, h3⟩
    unfold _gen_board
    rw [get_solved_board_eq side hs]
    exact h1
  · intro board nul d h
    exact make_move_of_not_check side board nul d h

/-- Witness of C18: the walk UP, RIGHT, LEFT, DOWN, DOWN on the 4 × 4 board; RIGHT and the
second DOWN fail the edge test, the effective steps are UP, LEFT, DOWN, and the replay
UP, RIGHT, DOWN leads back to the solved board. -/
theorem walk_is_reversible_witness :
    effective_steps 4 [.UP, .RIGHT, .LEFT, .DOWN, .DOWN] 15 = [.UP, .LEFT, .DOWN] ∧
    _gen_board 4 [.UP, .RIGHT, .LEFT, .DOWN, .DOWN] =
      some ([1, 2, 3, 4, 5, 6, 7, 8, 9, 10, 15, 11, 13, 14, 0, 12], 14) ∧
    valid_moves 4 [.UP, .RIGHT, .DOWN]
      [1, 2, 3, 4, 5, 6, 7, 8, 9, 10, 15, 11, 13, 14, 0, 12] 14 =
        some (solvedConfiguration 4, 15) ∧
    ((∃ b z, _gen_board 4 [.UP, .RIGHT, .LEFT, .DOWN, .DOWN] = some (b, z) ∧
      valid_moves 4 (effective_steps 4 [.UP, .RIGHT, .LEFT, .DOWN, .DOWN] ((GAME_SIZE 4 : Int) - 1))
        (solvedConfiguration 4) ((GAME_SIZE 4 : Int) - 1) = some (b, z) ∧
      valid_moves 4
        ((effective_steps 4 [.UP, .RIGHT, .LEFT, .DOWN, .DOWN]
          ((GAME_SIZE 4 : Int) - 1)).reverse.map opposite) b z =
          some (solvedConfiguration 4, (GAME_SIZE 4 : Int) - 1)) ∧
    (∀ (board : List Int) (nul : Int) (d : DIRECTION), _check_direction 4 nul d = false →
      _make_move 4 board nul d = some (board, nul, false))) :=
  ⟨by decide, by decide, by decide,
    walk_is_reversible 4 (by decide) [.UP, .RIGHT, .LEFT, .DOWN, .DOWN]⟩

/-! ## Solving a shuffled board through `move` -/

theorem aboveLastRow_fired (s : BoardModel) (idx : Int) (d : DIRECTION) (hs : AboveLastRow s)
    (h0 : 0 ≤ s._nul_index + offset 4 d) (h1 : s._nul_index + offset 4 d < 12) :
    ∃ t b r,
      (match qSwap s._board s._nul_index (s._nul_index + offset 4 d) with
        | none => none
        | some w =>
          (_check_solved 4 w).map (fun solved =>
            (({ s with _board := w, _nul_index := s._nul_index + offset 4 d,
                       _is_solved := solved, _num_shifts := s._num_shifts + 1,
                       _states := (idx, s._nul_index) :: s._states } : BoardModel),
              true, some s._nul_index))) = some (t, b, r) ∧ AboveLastRow t := by
  obtain ⟨hl, n0, n1, hc⟩ := hs
  obtain ⟨w, hq, hwl⟩ := qSwap_of_lt s._board s._nul_index (s._nul_index + offset 4 d) n0
    (by rw [hl]; omega) h0 (by rw [hl]; omega)
  obtain ⟨c, hcs⟩ := check_solved_isSome 4 w (by rw [hwl, hl]; decide)
  rw [hq]
  simp only [hcs, Option.map_some']
  refine ⟨_, true, some s._nul_index, rfl, by rw [hwl, hl], h0, h1, ?_⟩
  simp only
  rw [qSwap_readCell_other _ _ _ 15 w hq (by omega) (by omega)]
  exact hc

theorem aboveLastRow_move (s : BoardModel) (idx : Int) (hs : AboveLastRow s) :
    ∃ t b r, move 4 s idx = some (t, b, r) ∧ AboveLastRow t := by
  have n0 := hs.2.1
  have n1 := hs.2.2.1
  rw [move_eq 4 (by decide)]
  unfold firstMatch
  simp only [List.find?]
  by_cases hU : passes 4 s._nul_index idx .UP = true
  · simp only [hU]
    rw [passes_iff] at hU
    simp only [_check_direction, decide_eq_true_eq, offset] at hU
    exact aboveLastRow_fired s idx .UP hs (by simp only [offset]; omega)
      (by simp only [offset]; omega)
  · simp only [hU]
    by_cases hD : passes 4 s._nul_index idx .DOWN = true
    · simp only [hD]
      rw [passes_iff] at hU hD
      simp only [_check_direction, decide_eq_true_eq, offset] at hU hD
      exact aboveLastRow_fired s idx .DOWN hs (by simp only [offset]; omega)
        (by simp only [offset]; omega)
    · simp only [hD]
      by_cases hL : passes 4 s._nul_index idx .LEFT = true
      · simp only [hL]
        rw [passes_iff] at hL
        simp only [_check_direction, decide_eq_true_eq, offset] at hL
        rw [Int.tmod_eq_emod n0 (by decide)] at hL
        exact aboveLastRow_fired s idx .LEFT hs (by simp only [offset]; omega)
          (by simp only [offset]; omega)
      · simp only [hL]
        by_cases hR : passes 4 s._nul_index idx .RIGHT = true
        · simp only [hR]
          rw [passes_iff] at hL hR
          simp only [_check_direction, decide_eq_true_eq, offset] at hL hR
          rw [Int.tmod_eq_emod n0 (by decide)] at hL hR
          exact aboveLastRow_fired s idx .RIGHT hs (by simp only [offset]; omega)
            (by simp only [offset]; omega)
        · simp only [hR]
          exact ⟨s, false, none, rfl, hs⟩

theorem aboveLastRow_run (targets : List Int) (s : BoardModel) (hs : AboveLastRow s) :
    ∃ t, run 4 s (targets.map Call.move) = some t ∧ AboveLastRow t := by
  induction targets generalizing s with
  | nil => exact ⟨s, rfl, hs⟩
  | cons idx rest ih =>
    obtain ⟨u, b, r, hm, hu⟩ := aboveLastRow_move s idx hs
    obtain ⟨t, ht, hst⟩ := ih u hu
    refine ⟨t, ?_, hst⟩
    simp only [List.map_cons, run, step_move, hm, Option.map_some', Option.some_bind]
    exact ht

theorem aboveLastRow_not_solved (s : BoardModel) (hs : AboveLastRow s) :
    s._board ≠ solvedConfiguration 4 := by
  intro e
  have h := hs.2.2.2
  rw [e] at h
  exact absurd h (by decide)

/-- C13 (the failing input): on the 4 × 4 board the walk `walkUp` makes `_gen_board` return
the board `[1,2,3,0,5,6,7,4,9,10,11,8,13,14,15,12]` with blank index 3, which the shuffling
constructor adopts; from that state every finite sequence of `move(target)` calls returns, and
none of them leaves the board equal to the solved configuration: the blank never enters the
last row again and cell 15 keeps tile 12. -/
theorem shuffled_board_not_solvable_by_moves (targets : List Int) :
    _gen_board 4 walkUp = some (shuffled3._board, shuffled3._nul_index) ∧
    BoardModel.construct 4 true [walkUp] = some shuffled3 ∧ WellFormed 4 shuffled3 ∧
    ∃ t, run 4 shuffled3 (targets.map Call.move) = some t ∧
      t._board ≠ solvedConfiguration 4 ∧ readCell t._board 15 = some 12 := by
  refine ⟨by decide, by decide, by decide, ?_⟩
  obtain ⟨t, h1, h2⟩ := aboveLastRow_run targets shuffled3 (by unfold AboveLastRow; decide)
  exact ⟨t, h1, aboveLastRow_not_solved t h2, h2.2.2.2⟩

end Fifteen
